import Mathlib

/-!
Verification development for the incremental syntax-tokenization layer
(`src/tokenized-buffer.js`): a shallow embedding of the tokenized-buffer
engine and proofs about its invalid-row bookkeeping, background chunk
scheduler, scope-stack folding, placeholder synthesis and queries.

Modelling notes:
* Rule stacks are opaque grammar state; they are modelled as `Nat` handles,
  compared structurally (the code compares them with a deep equality check).
* JavaScript `undefined` is modelled with `Option`; a thrown `TypeError`
  (property access on `undefined`) is modelled with `Except`.
* Row indices are `Int` (edit deltas are signed in the source).
* The emitter is modelled as an event list carried in the state; calls to
  `invalidateRow` are additionally recorded in an instrumentation list so
  that theorems can observe which rows were invalidated by an operation.
-/

/-- A tokenized line as constructed by the engine: text, line ending, the
interleaved tag stream, the rule stack produced at end of line (`none` for
placeholder lines, which are built without one), and the scopes open at the
start of the line. -/
structure TokenizedLine where
  openScopes : List Int
  text : String
  tags : List Int
  ruleStack : Option Nat
  lineEnding : String
deriving DecidableEq, Repr

/-- The grammar collaborator (external to `src/`): tokenizes one line from a
rule stack and maps scope ids to names. `tokenizeLine text ruleStack
isFirstLine` returns the tag stream and the end-of-line rule stack. -/
structure Grammar where
  name : String
  scopeName : String
  tokenizeLine : String → Option Nat → Bool → List Int × Nat
  startIdForScope : String → Int
  endIdForScope : String → Int
  scopeForId : Int → Option String

/-- The text buffer collaborator (external to `src/`): a list of lines and a
path. -/
structure TextBuffer where
  lines : List String
  path : String
deriving DecidableEq, Repr

def TextBuffer.getLineCount (b : TextBuffer) : Int := b.lines.length

def TextBuffer.getLastRow (b : TextBuffer) : Int := (b.lines.length : Int) - 1

def TextBuffer.lineForRow (b : TextBuffer) (row : Int) : String :=
  if 0 ≤ row then b.lines.getD row.toNat "" else ""

/-- Modelled from the spec: the buffer owns line endings; queries only pass
them through, so the last line has no ending and the others end in `"\n"`. -/
def TextBuffer.lineEndingForRow (b : TextBuffer) (row : Int) : String :=
  if row < b.getLastRow then "\n" else ""

def TextBuffer.getText (b : TextBuffer) : String :=
  String.intercalate "\n" b.lines

/-- Modelled from the spec: `buffer.isRowBlank(row)` (the buffer is an
external collaborator) — a row is blank when its line has no non-whitespace
character. -/
def TextBuffer.isRowBlank (b : TextBuffer) (row : Int) : Bool :=
  (b.lineForRow row).trim = ""

/-- Modelled from the spec: `buffer.nextNonBlankRow(row)` (external
collaborator) — the first row after `row` that is not blank, if any. -/
def TextBuffer.nextNonBlankRow (b : TextBuffer) (row : Int) : Option Int :=
  ((List.range b.lines.length).map (Int.ofNat)).find?
    (fun r => row < r ∧ ¬ b.isRowBlank r)

/-- Events sent through the emitter. -/
inductive TBEvent where
  | didTokenize
  | didInvalidateRange (startRow endRow : Int)
deriving DecidableEq, Repr

/-- Diagnostic record attached by the injected `assert` hook when an
unmatched scope end tag is encountered (`scopesFromTags`). -/
structure AssertRecord where
  message : String
  grammarScopeName : String
  unmatchedEndTag : Option String
  filePath : String
  fileContents : String
deriving DecidableEq, Repr

/-- The state of a `TokenizedBuffer`.

`chunkSize` — Modelled from the spec: "`chunkSize` is a fixed
implementation constant (e.g., 20 rows)"; the constant's defining
assignment is not part of `src/tokenized-buffer.js`, so it is carried as a
state constant that no operation changes.

`isCommentLine` — Modelled from the spec: `TokenizedLine.isComment()`
(defined in `tokenized-line.js`, not under `src/`) is "true iff the line's
first non-whitespace token has a scope matching the grammar's comment
selector (grammar-provided predicate)"; it is carried as an opaque
predicate. -/
structure TBState where
  buffer : TextBuffer
  grammar : Grammar
  tabLength : Int
  largeFileMode : Bool
  alive : Bool
  chunkSize : Nat
  tokenizedLines : List (Option TokenizedLine)
  invalidRows : List Int
  fullyTokenized : Bool
  events : List TBEvent
  invalidateCalls : List Int
  isCommentLine : TokenizedLine → Bool

def lastRow (s : TBState) : Int := s.buffer.getLastRow

def getLineCount (s : TBState) : Int := s.buffer.getLineCount

/-- `this.tokenizedLines[bufferRow]` — `none` when the slot is empty or the
row is out of bounds (JS yields `undefined`). -/
def cacheAt (s : TBState) (row : Int) : Option TokenizedLine :=
  if 0 ≤ row then s.tokenizedLines.getD row.toNat none else none

/-- `this.tokenizedLines[row] = line`. (Assignment past the end of the
array is not modelled; the engine only writes rows `≤ lastRow` of a cache
whose length is the buffer's line count.) -/
def setCacheAt (s : TBState) (row : Int) (line : TokenizedLine) : TBState :=
  if 0 ≤ row then
    { s with tokenizedLines := s.tokenizedLines.set row.toNat (some line) }
  else s

/-- `stackForRow`: the rule stack of the cached line at `row`, if any. -/
def stackForRow (s : TBState) (row : Int) : Option Nat :=
  (cacheAt s row).bind TokenizedLine.ruleStack

/-- The inner pop loop of `scopesFromTags`, on the reversed stack (top of
the JS array first). Pops until the popped element matches
`matchingStartTag` (second component `false`), or the stack runs empty
first (second component `true`, the assert fires). A pop on an already
empty stack yields JS `undefined`, which never equals the tag, so the
length check fires the assert immediately. -/
def popUntilMatchRev : List Int → Int → List Int × Bool
  | [], _ => ([], true)
  | top :: rest, matchingStartTag =>
    if top = matchingStartTag then (rest, false)
    else if rest = [] then ([], true)
    else popUntilMatchRev rest matchingStartTag

/-- The inner `while (true) { if (scopes.pop() === matchingStartTag) break;
if (scopes.length === 0) { assert; break } }` loop: the JS array keeps its
top at the end, so it is run on the reversed list. -/
def popUntilMatch (scopes : List Int) (matchingStartTag : Int) :
    List Int × Bool :=
  let r := popUntilMatchRev scopes.reverse matchingStartTag
  (r.1.reverse, r.2)

/-- The assert record built at an unmatched scope end tag `tag`. -/
def unmatchedAssert (s : TBState) (tag : Int) : AssertRecord :=
  { message := "Encountered an unmatched scope end tag."
    grammarScopeName := s.grammar.scopeName
    unmatchedEndTag := s.grammar.scopeForId tag
    filePath := s.buffer.path
    fileContents := s.buffer.getText }

/-- The tag loop of `scopesFromTags`: non-negative tags are skipped, odd
negative tags (`tag % 2 === -1`, JS truncating remainder) are pushed, even
negative tags pop until the matching start tag; when the pop loop empties
the stack an assert record is appended and the loop continues with the next
tag. -/
def scopesFromTagsGo (s : TBState) : List Int → List Int →
    List AssertRecord → List Int × List AssertRecord
  | scopes, [], recs => (scopes, recs)
  | scopes, tag :: rest, recs =>
    if tag < 0 then
      if tag.tmod 2 = -1 then
        scopesFromTagsGo s (scopes ++ [tag]) rest recs
      else
        let matchingStartTag := tag + 1
        let r := popUntilMatch scopes matchingStartTag
        scopesFromTagsGo s r.1 rest
          (if r.2 then recs ++ [unmatchedAssert s tag] else recs)
    else
      scopesFromTagsGo s scopes rest recs

/-- `scopesFromTags(startingScopes, tags)`: fold the tag stream over a copy
of the starting scope stack; also returns the assert records fired for
unmatched scope end tags. -/
def scopesFromTags (s : TBState) (startingScopes tags : List Int) :
    List Int × List AssertRecord :=
  scopesFromTagsGo s startingScopes tags []

/-- `openScopesForRow`: fold the preceding cached line's tags over its open
scopes; `[]` when there is no preceding cached line. -/
def openScopesForRow (s : TBState) (row : Int) : List Int :=
  match cacheAt s (row - 1) with
  | some precedingLine =>
      (scopesFromTags s precedingLine.openScopes precedingLine.tags).1
  | none => []

/-- `buildTokenizedLineForRowWithText`. -/
def buildTokenizedLineForRowWithText (s : TBState) (row : Int)
    (text : String) (currentRuleStack : Option Nat) (openScopes : List Int) :
    TokenizedLine :=
  let lineEnding := s.buffer.lineEndingForRow row
  let r := s.grammar.tokenizeLine text currentRuleStack (row = 0)
  { openScopes := openScopes
    text := text
    tags := r.1
    ruleStack := some r.2
    lineEnding := lineEnding }

/-- `buildTokenizedLineForRow`. -/
def buildTokenizedLineForRow (s : TBState) (row : Int)
    (ruleStack : Option Nat) (openScopes : List Int) : TokenizedLine :=
  buildTokenizedLineForRowWithText s row (s.buffer.lineForRow row)
    ruleStack openScopes

/-- `tokenizeInBackground` only manipulates the deferral flags
(`pendingChunk`, `visible`, `alive`) and schedules one `tokenizeNextChunk`
on the next tick; the scheduling itself is outside this model (invocations
of `tokenizeNextChunk` are counted explicitly by the theorems), so on the
modelled state it changes nothing. -/
def tokenizeInBackground (s : TBState) : TBState := s

/-- `markTokenizationComplete`: emit `did-tokenize` when not already fully
tokenized, then set the flag. -/
def markTokenizationComplete (s : TBState) : TBState :=
  { s with
    events := s.events ++ (if s.fullyTokenized then [] else [TBEvent.didTokenize])
    fullyTokenized := true }

/-- The loop of `validateRow`: `while (invalidRows[0] <= row) shift()`. -/
def validateRowsFrom : List Int → Int → List Int
  | [], _ => []
  | r :: rest, row => if r ≤ row then validateRowsFrom rest row else r :: rest

/-- `validateRow(row)`. -/
def validateRow (s : TBState) (row : Int) : TBState :=
  { s with invalidRows := validateRowsFrom s.invalidRows row }

/-- `invalidRows.sort((a, b) => a - b)`: a stable ascending sort; on
integers any ascending sort yields the same list. -/
def sortRows (rows : List Int) : List Int :=
  List.insertionSort (· ≤ ·) rows

/-- `invalidateRow(row)`: push, re-sort ascending, kick the background
scheduler. The pushed row is also recorded in the instrumentation list. -/
def invalidateRow (s : TBState) (row : Int) : TBState :=
  tokenizeInBackground
    { s with
      invalidRows := sortRows (s.invalidRows ++ [row])
      invalidateCalls := s.invalidateCalls ++ [row] }

/-- The per-row relocation of `updateInvalidRows(start, end, delta)`. -/
def rebaseRow (start end_ delta row : Int) : Int :=
  if row < start then row
  else if start ≤ row ∧ row ≤ end_ then end_ + delta + 1
  else row + delta

/-- `updateInvalidRows(start, end, delta)`. -/
def updateInvalidRows (s : TBState) (start end_ delta : Int) : TBState :=
  { s with invalidRows := s.invalidRows.map (rebaseRow start end_ delta) }

/-- Result of one region of `tokenizeNextChunk`'s inner loop: the state
after the builds, the `endRow` where the region stopped, the
`filledRegion` flag, the remaining `rowsRemaining`, and how many rows were
built. -/
structure RegionResult where
  state : TBState
  endRow : Int
  filledRegion : Bool
  remaining : Nat
  builds : Nat

/-- The inner loop of `tokenizeNextChunk`, structurally recursive on
`rowsRemaining` (each iteration performs exactly one build and one
decrement). The caller guards `rowsRemaining > 0`, so the `0` case is
unreachable; it is given a neutral result. -/
def tokenizeRegion (s : TBState) (row : Int) : Nat → RegionResult
  | 0 => { state := s, endRow := row, filledRegion := false, remaining := 0, builds := 0 }
  | rowsRemaining + 1 =>
    let previousStack := stackForRow s row
    let line := buildTokenizedLineForRow s row (stackForRow s (row - 1))
      (openScopesForRow s row)
    let s1 := setCacheAt s row line
    if rowsRemaining = 0 then
      { state := s1, endRow := row, filledRegion := false, remaining := 0, builds := 1 }
    else if row = lastRow s1 ∨ stackForRow s1 row = previousStack then
      { state := s1, endRow := row, filledRegion := true,
        remaining := rowsRemaining, builds := 1 }
    else
      let r := tokenizeRegion s1 (row + 1) rowsRemaining
      { state := r.state, endRow := r.endRow, filledRegion := r.filledRegion,
        remaining := r.remaining, builds := r.builds + 1 }

/-- One processed region of `tokenizeNextChunk`'s outer loop: run the inner
build loop from `startRow`, `validateRow(endRow)`, `invalidateRow(endRow +
1)` when the region was not filled, and emit `did-invalidate-range`.
Returns the new state, the remaining `rowsRemaining`, and the number of
rows built. -/
def chunkProcessRegion (s1 : TBState) (startRow : Int) (rowsRemaining : Nat) :
    TBState × Nat × Nat :=
  let r := tokenizeRegion s1 startRow rowsRemaining
  let s2 := validateRow r.state r.endRow
  let s3 := if r.filledRegion then s2 else invalidateRow s2 (r.endRow + 1)
  ({ s3 with
      events := s3.events ++ [TBEvent.didInvalidateRange startRow (r.endRow + 1)] },
   r.remaining, r.builds)

/-- The outer `while (firstInvalidRow() != null && rowsRemaining > 0)` loop
of `tokenizeNextChunk`. `fuel` only bounds the recursion depth: every
iteration either drops one invalid row without touching `rowsRemaining`, or
consumes at least one unit of `rowsRemaining` while growing the invalid-row
list by at most one, so `rowsRemaining + invalidRows.length` iterations
always suffice (the entry point supplies exactly that). Returns the state,
the final `rowsRemaining`, and the number of rows built. -/
def tokenizeChunkGo (s : TBState) (builds : Nat) :
    Nat → Nat → TBState × Nat × Nat
  | 0, rowsRemaining => (s, rowsRemaining, builds)
  | fuel + 1, rowsRemaining =>
    match s.invalidRows with
    | [] => (s, rowsRemaining, builds)
    | startRow :: rest =>
      if rowsRemaining = 0 then (s, rowsRemaining, builds)
      else
        let s1 := { s with invalidRows := rest }
        if startRow > lastRow s1 then tokenizeChunkGo s1 builds fuel rowsRemaining
        else
          let p := chunkProcessRegion s1 startRow rowsRemaining
          tokenizeChunkGo p.1 (builds + p.2.2) fuel p.2.1

/-- `tokenizeNextChunk()`: drain up to `chunkSize` rows of the invalid-row
set; if rows remain, re-kick the background scheduler, otherwise mark
tokenization complete. Additionally returns the number of rows built
(calls to `buildTokenizedLineForRow`) during the invocation. -/
def tokenizeNextChunk (s : TBState) : TBState × Nat :=
  if (tokenizeChunkGo s 0 (s.chunkSize + s.invalidRows.length)
      s.chunkSize).1.invalidRows = [] then
    (markTokenizationComplete (tokenizeChunkGo s 0
        (s.chunkSize + s.invalidRows.length) s.chunkSize).1,
     (tokenizeChunkGo s 0 (s.chunkSize + s.invalidRows.length) s.chunkSize).2.2)
  else
    (tokenizeInBackground (tokenizeChunkGo s 0
        (s.chunkSize + s.invalidRows.length) s.chunkSize).1,
     (tokenizeChunkGo s 0 (s.chunkSize + s.invalidRows.length) s.chunkSize).2.2)

/-- `iterateChunks n s`: `n` successive invocations of
`tokenizeNextChunk`. -/
def iterateChunks : Nat → TBState → TBState
  | 0, s => s
  | n + 1, s => iterateChunks n (tokenizeNextChunk s).1

/-- `retokenizeLines()`. -/
def retokenizeLines (s : TBState) : TBState :=
  if s.alive = false then s
  else
    let s1 := { s with
      fullyTokenized := false
      tokenizedLines := List.replicate s.buffer.getLineCount.toNat
        (none : Option TokenizedLine)
      invalidRows := ([] : List Int) }
    if s1.largeFileMode ∨ s1.grammar.name = "Null Grammar" then
      markTokenizationComplete s1
    else invalidateRow s1 0

/-- A buffer position carried by a change event. -/
structure TextPoint where
  row : Int
  column : Int
deriving DecidableEq, Repr

/-- A buffer range carried by a change event. -/
structure TextRange where
  start : TextPoint
  end_ : TextPoint
deriving DecidableEq, Repr

/-- The `{oldRange, newRange}` payload of a buffer change event. -/
structure ChangeEvent where
  oldRange : TextRange
  newRange : TextRange
deriving DecidableEq, Repr

/-- `_.spliceWithArray(list, start, deleteCount, insert)`. -/
def spliceList {α : Type} (l : List α) (start deleteCount : Nat)
    (ins : List α) : List α :=
  l.take start ++ ins ++ l.drop (start + deleteCount)

/-- The row loop of `buildTokenizedLinesForRows`, structurally recursive on
the number of rows still to visit (`endRow - row + 1`); rows with no
incoming rule stack (other than row 0) or beyond `stopTokenizingAt` are
left empty. -/
def buildRowsLoop (s : TBState) (stopTokenizingAt : Int) :
    Nat → Int → Option Nat → List Int → List (Option TokenizedLine)
  | 0, _, _, _ => []
  | count + 1, row, ruleStack, openScopes =>
    if (ruleStack.isSome ∨ row = 0) ∧ row < stopTokenizingAt then
      let line := buildTokenizedLineForRowWithText s row
        (s.buffer.lineForRow row) ruleStack openScopes
      some line :: buildRowsLoop s stopTokenizingAt count (row + 1)
        line.ruleStack (scopesFromTags s openScopes line.tags).1
    else
      none :: buildRowsLoop s stopTokenizingAt count (row + 1) ruleStack openScopes

/-- `buildTokenizedLinesForRows(startRow, endRow, startingStack,
startingopenScopes)`: build as many rows of `[startRow, endRow]` as the
chunk limit allows; when the limit cuts the range short, invalidate the
first unbuilt row and kick the background scheduler. -/
def buildTokenizedLinesForRows (s : TBState) (startRow endRow : Int)
    (startingStack : Option Nat) (startingopenScopes : List Int) :
    List (Option TokenizedLine) × TBState :=
  let stopTokenizingAt := startRow + (s.chunkSize : Int)
  let tokenizedLines := buildRowsLoop s stopTokenizingAt
    (endRow + 1 - startRow).toNat startRow startingStack startingopenScopes
  let s1 :=
    if endRow ≥ stopTokenizingAt then
      tokenizeInBackground (invalidateRow s stopTokenizingAt)
    else s
  (tokenizedLines, s1)

/-- The rebase step of `bufferDidChange`: with `start = oldRange.start.row`,
`end = oldRange.end.row` and `delta = newRange.end.row - oldRange.end.row`,
run `updateInvalidRows(start, end, delta)`. -/
def bdcRebase (s : TBState) (e : ChangeEvent) : TBState :=
  updateInvalidRows s e.oldRange.start.row e.oldRange.end_.row
    (e.newRange.end_.row - e.oldRange.end_.row)

/-- The eager rebuild step of `bufferDidChange` outside the degenerate
modes: `buildTokenizedLinesForRows(start, end + delta, stackForRow(start -
1), openScopesForRow(start))` on the rebased state (the rebase does not
touch the cache). -/
def bdcBuild (s : TBState) (e : ChangeEvent) :
    List (Option TokenizedLine) × TBState :=
  buildTokenizedLinesForRows (bdcRebase s e) e.oldRange.start.row
    (e.oldRange.end_.row + (e.newRange.end_.row - e.oldRange.end_.row))
    (stackForRow (bdcRebase s e) (e.oldRange.start.row - 1))
    (openScopesForRow (bdcRebase s e) e.oldRange.start.row)

/-- The cache splice of `bufferDidChange` outside the degenerate modes:
replace `oldLineCount` rows at `start` with the rebuilt lines. -/
def bdcSpliced (s : TBState) (e : ChangeEvent) : TBState :=
  { (bdcBuild s e).2 with
    tokenizedLines := (spliceList (bdcBuild s e).2.tokenizedLines
      e.oldRange.start.row.toNat
      (e.oldRange.end_.row - e.oldRange.start.row + 1).toNat
      (bdcBuild s e).1) }

/-- `bufferDidChange(e)`: rebase the invalid rows, capture the pre-splice
end stack, splice the cache (rebuilding the edited rows eagerly unless in
large-file or null-grammar mode), and propagate a spill invalidation when
the new end stack at `end + delta` is non-null and differs from the
captured one. -/
def bufferDidChange (s : TBState) (e : ChangeEvent) : TBState :=
  if (bdcRebase s e).largeFileMode ∨
      (bdcRebase s e).grammar.name = "Null Grammar" then
    { (bdcRebase s e) with
      tokenizedLines := (spliceList (bdcRebase s e).tokenizedLines
        e.oldRange.start.row.toNat
        (e.oldRange.end_.row - e.oldRange.start.row + 1).toNat
        (List.replicate (e.newRange.end_.row - e.newRange.start.row + 1).toNat
          none)) }
  else
    let newEndStack := stackForRow (bdcSpliced s e)
      (e.oldRange.end_.row + (e.newRange.end_.row - e.oldRange.end_.row))
    if newEndStack.isSome ∧
        ¬ newEndStack = stackForRow (bdcRebase s e) e.oldRange.end_.row then
      invalidateRow (bdcSpliced s e)
        (e.oldRange.end_.row + (e.newRange.end_.row - e.oldRange.end_.row) + 1)
    else bdcSpliced s e

/-- A thrown JavaScript exception: property access on `undefined`. -/
inductive JsError where
  | typeError
deriving DecidableEq, Repr

/-- A token: a span of the line together with the scopes covering it. -/
structure Token where
  startColumn : Int
  endColumn : Int
  scopes : List Int
deriving DecidableEq, Repr

/-- Modelled from the spec: `TokenizedLine.tokenAtBufferColumn(col)`
(`tokenized-line.js` is not under `src/`) — "returns the token (span +
scope list) covering `col`": walk the tag stream keeping the scope stack
and the column, returning the first span whose end exceeds `col`. -/
def tokenAtBufferColumnGo : List Int → List Int → Int → Int → Option Token
  | [], _, _, _ => none
  | tag :: rest, scopes, startCol, col =>
    if tag < 0 then
      if tag.tmod 2 = -1 then
        tokenAtBufferColumnGo rest (scopes ++ [tag]) startCol col
      else tokenAtBufferColumnGo rest scopes.dropLast startCol col
    else
      let endCol := startCol + tag
      if col < endCol then some { startColumn := startCol, endColumn := endCol, scopes := scopes }
      else tokenAtBufferColumnGo rest scopes endCol col

/-- Modelled from the spec: `TokenizedLine.tokenAtBufferColumn(col)`. -/
def tokenAtBufferColumn (line : TokenizedLine) (col : Int) : Option Token :=
  tokenAtBufferColumnGo line.tags line.openScopes 0 col

/-- Modelled from the spec: `TokenizedLine.tokenStartColumnForBufferColumn`
— the start column of the token covering `col` (`0` when there is none). -/
def tokenStartColumnForBufferColumn (line : TokenizedLine) (col : Int) : Int :=
  match tokenAtBufferColumn line col with
  | some token => token.startColumn
  | none => 0

/-- The placeholder line `tokenizedLineForRow` synthesizes for an empty
in-range cache slot: one span of the line's length bracketed by the root
scope's open and close tags, no open scopes, no rule stack. -/
def placeholderLine (s : TBState) (bufferRow : Int) : TokenizedLine :=
  let text := s.buffer.lineForRow bufferRow
  { openScopes := []
    text := text
    tags := [s.grammar.startIdForScope s.grammar.scopeName,
      (text.length : Int), s.grammar.endIdForScope s.grammar.scopeName]
    ruleStack := none
    lineEnding := s.buffer.lineEndingForRow bufferRow }

/-- `tokenizedLineForRow(bufferRow)`: out-of-range rows yield nothing;
an empty in-range slot is filled with a synthesized placeholder line,
which is stored and returned; a populated slot is returned as is. -/
def tokenizedLineForRow (s : TBState) (bufferRow : Int) :
    Option TokenizedLine × TBState :=
  if 0 ≤ bufferRow ∧ bufferRow ≤ s.buffer.getLastRow then
    match cacheAt s bufferRow with
    | some tokenizedLine => (some tokenizedLine, s)
    | none =>
      let line := placeholderLine s bufferRow
      (some line, setCacheAt s bufferRow line)
  else (none, s)

/-- `tokenForPosition(position)`: delegates to the tokenized line's lookup;
when `tokenizedLineForRow` yields nothing (out-of-range row) the method
call on `undefined` throws a `TypeError`. -/
def tokenForPosition (s : TBState) (position : TextPoint) :
    Except JsError (Option Token) × TBState :=
  let r := tokenizedLineForRow s position.row
  match r.1 with
  | none => (Except.error JsError.typeError, r.2)
  | some line => (Except.ok (tokenAtBufferColumn line position.column), r.2)

/-- `tokenStartPositionForPosition(position)`: same delegation; throws a
`TypeError` on an out-of-range row. -/
def tokenStartPositionForPosition (s : TBState) (position : TextPoint) :
    Except JsError TextPoint × TBState :=
  let r := tokenizedLineForRow s position.row
  match r.1 with
  | none => (Except.error JsError.typeError, r.2)
  | some line =>
    let p : TextPoint :=
      { row := position.row
        column := tokenStartColumnForBufferColumn line position.column }
    (Except.ok p, r.2)

/-- `selectorMatchesAnyScope(selector, scopes)`: the selector's dotted
classes (leading dot stripped) must be a subset of some scope's dotted
classes. (A `null` scope name would make the JS throw; it is treated as a
non-match here and is not exercised by any theorem.) -/
def selectorMatchesAnyScope (selector : String) (scopes : List (Option String)) : Bool :=
  let targetClasses :=
    (if selector.startsWith "." then selector.drop 1 else selector).splitOn "."
  scopes.any fun sc =>
    match sc with
    | some scope => targetClasses.all (fun c => c ∈ scope.splitOn ".")
    | none => false

/-- The first loop of `bufferRangeForScopeAtPosition`: advance over the tag
stream maintaining the scope stack until a span containing the position's
column is found. Returns the scope stack, `startColumn`, `endColumn` and
the index where the loop stopped. (`endColumn` starts at `0`; the JS
variable is unassigned until the first positive tag, which is always seen
before any read in the runs the theorems exercise.) -/
def brScanGo (g : Grammar) (column : Int) :
    List Int → List (Option String) → Int → Int →
    List (Option String) × Int × Int × Nat
  | [], scopes, startCol, endCol => (scopes, startCol, endCol, 0)
  | tag :: rest, scopes, startCol, endCol =>
    if tag < 0 then
      let scopes1 := if tag.tmod 2 = -1 then scopes ++ [g.scopeForId tag]
        else scopes.dropLast
      let r := brScanGo g column rest scopes1 startCol endCol
      (r.1, r.2.1, r.2.2.1, r.2.2.2 + 1)
    else
      let endCol1 := startCol + tag
      if endCol1 ≥ column then (scopes, startCol, endCol1, 0)
      else
        let r := brScanGo g column rest scopes endCol1 endCol1
        (r.1, r.2.1, r.2.2.1, r.2.2.2 + 1)

/-- The leftward expansion loop of `bufferRangeForScopeAtPosition`, run on
the reversed prefix of the tag stream: undo pushes and pops, extending the
start column left while the selector still matches. -/
def brExpandLeft (g : Grammar) (selector : String) :
    List Int → List (Option String) → Int → Int
  | [], _, startCol => startCol
  | tag :: rest, scopes, startCol =>
    if tag < 0 then
      let scopes1 := if tag.tmod 2 = -1 then scopes.dropLast
        else scopes ++ [g.scopeForId tag]
      brExpandLeft g selector rest scopes1 startCol
    else if ¬ selectorMatchesAnyScope selector scopes then startCol
    else brExpandLeft g selector rest scopes (startCol - tag)

/-- The rightward expansion loop of `bufferRangeForScopeAtPosition`. -/
def brExpandRight (g : Grammar) (selector : String) :
    List Int → List (Option String) → Int → Int
  | [], _, endCol => endCol
  | tag :: rest, scopes, endCol =>
    if tag < 0 then
      let scopes1 := if tag.tmod 2 = -1 then scopes ++ [g.scopeForId tag]
        else scopes.dropLast
      brExpandRight g selector rest scopes1 endCol
    else if ¬ selectorMatchesAnyScope selector scopes then endCol
    else brExpandRight g selector rest scopes (endCol + tag)

/-- `bufferRangeForScopeAtPosition(selector, position)`: destructuring the
result of `tokenizedLineForRow` throws a `TypeError` on an out-of-range
row; otherwise walk to the span containing the column, test the selector,
and expand left and right while it still matches. The result is
`(row, startColumn, endColumn)`. -/
def bufferRangeForScopeAtPosition (s : TBState) (selector : String)
    (position : TextPoint) : Except JsError (Option (Int × Int × Int)) × TBState :=
  let r0 := tokenizedLineForRow s position.row
  match r0.1 with
  | none => (Except.error JsError.typeError, r0.2)
  | some line =>
    let scopes0 := line.openScopes.map (fun tag => s.grammar.scopeForId tag)
    let scan := brScanGo s.grammar position.column line.tags scopes0 0 0
    let scopes := scan.1
    let startColumn := scan.2.1
    let endColumn := scan.2.2.1
    let tokenIndex := scan.2.2.2
    if ¬ selectorMatchesAnyScope selector scopes then (Except.ok none, r0.2)
    else
      let startCol := brExpandLeft s.grammar selector
        ((line.tags.take tokenIndex).reverse) scopes startColumn
      let endCol := brExpandRight s.grammar selector
        (line.tags.drop (tokenIndex + 1)) scopes endColumn
      (Except.ok (some (position.row, startCol, endCol)), r0.2)

/-- The leading-whitespace scan of `indentLevelForLine`: tabs advance to
the next multiple of `tabLength`, spaces add one, anything else stops. -/
def indentLengthOf : List Char → Int → Int → Int
  | [], _, acc => acc
  | c :: rest, tabLength, acc =>
    if c = '\t' then indentLengthOf rest tabLength (acc + (tabLength - acc % tabLength))
    else if c = ' ' then indentLengthOf rest tabLength (acc + 1)
    else acc

/-- `indentLevelForLine(line, tabLength)` (a rational: the JS value is a
float obtained by dividing by `tabLength`). -/
def indentLevelForLine (line : String) (tabLength : Int) : Rat :=
  ((indentLengthOf line.data tabLength 0 : Int) : Rat) / ((tabLength : Int) : Rat)

/-- `indentLevelForRow(bufferRow)`: a non-empty line's own indent level;
for an empty line, the maximum of the ceilings of the next and previous
non-empty lines' indent levels (the JS `while` loops find the first such
row in each direction). -/
def indentLevelForRow (s : TBState) (bufferRow : Int) : Rat :=
  let line := s.buffer.lineForRow bufferRow
  if line = "" then
    let rows := (List.range s.buffer.lines.length).map (Int.ofNat)
    let nextFound := rows.find?
      (fun r => bufferRow < r ∧ ¬ s.buffer.lineForRow r = "")
    let prevFound := rows.reverse.find?
      (fun r => r < bufferRow ∧ ¬ s.buffer.lineForRow r = "")
    let indentLevel1 : Int :=
      match nextFound with
      | some r => ⌈indentLevelForLine (s.buffer.lineForRow r) s.tabLength⌉
      | none => 0
    let indentLevel2 : Int :=
      match prevFound with
      | some r =>
        max (⌈indentLevelForLine (s.buffer.lineForRow r) s.tabLength⌉) indentLevel1
      | none => indentLevel1
    (indentLevel2 : Rat)
  else indentLevelForLine line s.tabLength

/-- `isFoldableCodeAtRow(row)`: guarded to `[0, lastRow]`; `false` for
blank rows, comment rows and rows without a following non-blank row;
otherwise compares indent levels with the next non-blank row. -/
def isFoldableCodeAtRow (s : TBState) (row : Int) : Bool :=
  if 0 ≤ row ∧ row ≤ s.buffer.getLastRow then
    let nextRow := s.buffer.nextNonBlankRow row
    let tokenizedLine := cacheAt s row
    if s.buffer.isRowBlank row ||
        (match tokenizedLine with
         | some line => s.isCommentLine line
         | none => false) ||
        nextRow.isNone then
      false
    else
      decide (indentLevelForRow s (nextRow.getD 0) > indentLevelForRow s row)
  else false

/-- A store of JavaScript arrays of scope tags, for stating what
`scopesFromTags` mutates: handles are indices, reads of unallocated
handles yield the empty array. -/
abbrev ScopeStore := List (List Int)

def storeGet (st : ScopeStore) (h : Nat) : List Int := st.getD h []

def storeSet (st : ScopeStore) (h : Nat) (v : List Int) : ScopeStore :=
  st.set h v

/-- The inner pop loop of `scopesFromTags` acting on the array named by
`h` in the store. -/
def storePopUntilMatch (st : ScopeStore) (h : Nat) (matchingStartTag : Int) :
    ScopeStore × Bool :=
  let r := popUntilMatch (storeGet st h) matchingStartTag
  (storeSet st h r.1, r.2)

/-- The tag loop of `scopesFromTags` acting on the array named by `h`:
pushes and pops go to that array only. -/
def scopesFromTagsStGo : ScopeStore → Nat → List Int → ScopeStore
  | st, _, [] => st
  | st, h, tag :: rest =>
    if tag < 0 then
      if tag.tmod 2 = -1 then
        scopesFromTagsStGo (storeSet st h (storeGet st h ++ [tag])) h rest
      else
        scopesFromTagsStGo (storePopUntilMatch st h (tag + 1)).1 h rest
    else
      scopesFromTagsStGo st h rest

/-- `scopesFromTags(startingScopes, tags)` at the level of array mutation:
`const scopes = startingScopes.slice()` allocates a fresh array holding a
copy, and every push and pop targets the fresh array. Returns the store
after the call and the handle of the returned array. -/
def scopesFromTagsSt (st : ScopeStore) (startingScopesHandle : Nat)
    (tags : List Int) : ScopeStore × Nat :=
  let h := st.length
  let st1 := st ++ [storeGet st startingScopesHandle]
  (scopesFromTagsStGo st1 h tags, h)

/-! Concrete fixtures used by witnesses and counterexamples. -/

/-- A small concrete grammar: every line tokenizes to a single span with a
constant rule stack. -/
def testGrammar : Grammar :=
  { name := "Test Grammar"
    scopeName := "source.test"
    tokenizeLine := fun _ _ _ => ([1], 7)
    startIdForScope := fun _ => -1
    endIdForScope := fun _ => -2
    scopeForId := fun t => if t = -1 ∨ t = -2 then some "source.test" else none }

/-- A concrete tokenized-buffer state over the given lines, invalid rows and
chunk size, with an empty cache. -/
def mkState (lines : List String) (invalid : List Int) (chunk : Nat) : TBState :=
  { buffer := { lines := lines, path := "sample.txt" }
    grammar := testGrammar
    tabLength := 2
    largeFileMode := false
    alive := true
    chunkSize := chunk
    tokenizedLines := List.replicate lines.length none
    invalidRows := invalid
    fullyTokenized := false
    events := []
    invalidateCalls := []
    isCommentLine := fun _ => false }

/-! C4 — edit rebasing of invalid rows. -/

theorem rebaseRow_of_lt (start end_ delta row : Int) (h : row < start) :
    rebaseRow start end_ delta row = row := by
  unfold rebaseRow
  rw [if_pos h]

theorem rebaseRow_of_mem (start end_ delta row : Int) (h1 : start ≤ row)
    (h2 : row ≤ end_) : rebaseRow start end_ delta row = end_ + delta + 1 := by
  unfold rebaseRow
  rw [if_neg (by omega), if_pos ⟨h1, h2⟩]

theorem rebaseRow_of_gt (start end_ delta row : Int) (hse : start ≤ end_)
    (h : end_ < row) : rebaseRow start end_ delta row = row + delta := by
  unfold rebaseRow
  rw [if_neg (by omega), if_neg (by rintro ⟨-, h2⟩; omega)]

/-- C4: rebasing `updateInvalidRows(start, end, delta)` maps every stored
invalid row pointwise: a row below `start` is unchanged, a row inside
`[start, end]` becomes `end + delta + 1`, and a row above `end` becomes
`row + delta` (stated positionally over the stored list). -/
theorem c4_rebase (s : TBState) (start end_ delta : Int) (hse : start ≤ end_)
    (i : Nat) (hi : i < s.invalidRows.length) :
    (updateInvalidRows s start end_ delta).invalidRows.length =
      s.invalidRows.length ∧
    (s.invalidRows.get ⟨i, hi⟩ < start →
      (updateInvalidRows s start end_ delta).invalidRows.getD i 0 =
        s.invalidRows.get ⟨i, hi⟩) ∧
    (start ≤ s.invalidRows.get ⟨i, hi⟩ → s.invalidRows.get ⟨i, hi⟩ ≤ end_ →
      (updateInvalidRows s start end_ delta).invalidRows.getD i 0 =
        end_ + delta + 1) ∧
    (end_ < s.invalidRows.get ⟨i, hi⟩ →
      (updateInvalidRows s start end_ delta).invalidRows.getD i 0 =
        s.invalidRows.get ⟨i, hi⟩ + delta) := by
  have hrows : (updateInvalidRows s start end_ delta).invalidRows =
      s.invalidRows.map (rebaseRow start end_ delta) := rfl
  have hget : (updateInvalidRows s start end_ delta).invalidRows.getD i 0 =
      rebaseRow start end_ delta (s.invalidRows.get ⟨i, hi⟩) := by
    rw [hrows, List.getD_eq_getElem?_getD, List.getElem?_map,
      List.getElem?_eq_getElem hi]
    rfl
  refine ⟨by rw [hrows, List.length_map], ?_, ?_, ?_⟩
  · intro h
    rw [hget, rebaseRow_of_lt _ _ _ _ h]
  · intro h1 h2
    rw [hget, rebaseRow_of_mem _ _ _ _ h1 h2]
  · intro h
    rw [hget, rebaseRow_of_gt _ _ _ _ hse h]

/-- A concrete state whose invalid rows exercise all three rebase cases. -/
def sRebase : TBState := mkState ["a", "b", "c", "d", "e", "f", "g", "h"] [1, 4, 7] 20

/-- Witness for C4 at `rebase(3, 5, 2)` over invalid rows `[1, 4, 7]`. -/
theorem c4_witness :
    (updateInvalidRows sRebase 3 5 2).invalidRows.getD 0 0 = 1 ∧
    (updateInvalidRows sRebase 3 5 2).invalidRows.getD 1 0 = 8 ∧
    (updateInvalidRows sRebase 3 5 2).invalidRows.getD 2 0 = 9 :=
  ⟨(c4_rebase sRebase 3 5 2 (by decide) 0 (by decide)).2.1 (by decide),
   (c4_rebase sRebase 3 5 2 (by decide) 1 (by decide)).2.2.1 (by decide) (by decide),
   (c4_rebase sRebase 3 5 2 (by decide) 2 (by decide)).2.2.2 (by decide)⟩

/-! C9 — the did-tokenize event fires exactly on transitions. -/

/-- The number of `did-tokenize` emissions recorded so far. -/
def countDidTokenize (events : List TBEvent) : Nat :=
  events.count TBEvent.didTokenize

/-- C9: `markTokenizationComplete` emits `did-tokenize` exactly once when
the fully-tokenized flag transitions from false to true, emits nothing when
the flag is already true, always leaves the flag true, and a second call
emits nothing further. -/
theorem c9_did_tokenize_once (s : TBState) :
    countDidTokenize (markTokenizationComplete s).events =
      countDidTokenize s.events + (if s.fullyTokenized then 0 else 1) ∧
    (markTokenizationComplete s).fullyTokenized = true ∧
    (s.fullyTokenized = true → (markTokenizationComplete s).events = s.events) ∧
    (markTokenizationComplete (markTokenizationComplete s)).events =
      (markTokenizationComplete s).events := by
  unfold markTokenizationComplete countDidTokenize
  cases hf : s.fullyTokenized <;> simp [List.count_append]

/-- A concrete not-yet-complete state for the C9 witness. -/
def sMark : TBState := mkState ["a"] [0] 20

/-- Witness for C9: on a state with the flag down, one event is emitted, the
flag goes up, and a repeated call emits nothing more. -/
theorem c9_witness :
    countDidTokenize (markTokenizationComplete sMark).events =
      countDidTokenize sMark.events + (if sMark.fullyTokenized then 0 else 1) ∧
    (markTokenizationComplete sMark).fullyTokenized = true ∧
    (sMark.fullyTokenized = true →
      (markTokenizationComplete sMark).events = sMark.events) ∧
    (markTokenizationComplete (markTokenizationComplete sMark)).events =
      (markTokenizationComplete sMark).events :=
  c9_did_tokenize_once sMark

/-! C2 — unmatched scope-close handling in `scopesFromTags`. -/

theorem popUntilMatchRev_fired_nil (scopes : List Int) (m : Int)
    (h : (popUntilMatchRev scopes m).2 = true) :
    (popUntilMatchRev scopes m).1 = [] := by
  induction scopes with
  | nil => rfl
  | cons top rest ih =>
    by_cases h1 : top = m
    · rw [popUntilMatchRev, if_pos h1] at h
      simp at h
    · by_cases h2 : rest = []
      · rw [popUntilMatchRev, if_neg h1, if_pos h2]
      · rw [popUntilMatchRev, if_neg h1, if_neg h2] at h ⊢
        exact ih h

theorem popUntilMatch_fired_nil (scopes : List Int) (m : Int)
    (h : (popUntilMatch scopes m).2 = true) : (popUntilMatch scopes m).1 = [] := by
  have h2 : (popUntilMatchRev scopes.reverse m).2 = true := h
  show (popUntilMatchRev scopes.reverse m).1.reverse = []
  rw [popUntilMatchRev_fired_nil scopes.reverse m h2]
  rfl

/-- C2 (amended): when a scope-close tag's matching open is absent and the
pop loop empties the stack, the fold records an assert carrying the grammar
scope name, the unmatched close's scope name, the buffer path and the full
buffer contents, the stack at that point is empty — but folding of the line
is not aborted: the remaining tags are folded from the emptied stack (only
the inner pop loop stops, not the whole fold). -/
theorem c2_amended (s : TBState) (scopes rest : List Int) (tag : Int)
    (recs : List AssertRecord) (hneg : tag < 0) (heven : ¬ tag.tmod 2 = -1)
    (hunmatched : (popUntilMatch scopes (tag + 1)).2 = true) :
    (popUntilMatch scopes (tag + 1)).1 = [] ∧
    scopesFromTagsGo s scopes (tag :: rest) recs =
      scopesFromTagsGo s [] rest (recs ++ [unmatchedAssert s tag]) ∧
    (unmatchedAssert s tag).grammarScopeName = s.grammar.scopeName ∧
    (unmatchedAssert s tag).unmatchedEndTag = s.grammar.scopeForId tag ∧
    (unmatchedAssert s tag).filePath = s.buffer.path ∧
    (unmatchedAssert s tag).fileContents = s.buffer.getText := by
  have hempty := popUntilMatch_fired_nil scopes (tag + 1) hunmatched
  refine ⟨hempty, ?_, rfl, rfl, rfl, rfl⟩
  show (if tag < 0 then _ else _) = _
  rw [if_pos hneg, if_neg heven]
  simp only [hunmatched, hempty, if_pos]

/-- A concrete state for the C2 theorems. -/
def sFold : TBState := mkState ["var x"] [] 20

/-- Witness for C2 (amended): the close tag `-4` over the stack `[-5]` has
no matching open, fires the assert with the diagnostic metadata, and the
fold continues with the remaining tags from the emptied stack. -/
theorem c2_witness :
    (popUntilMatch [-5] (-4 + 1)).1 = [] ∧
    scopesFromTagsGo sFold [-5] (-4 :: [-3]) [] =
      scopesFromTagsGo sFold [] [-3] ([] ++ [unmatchedAssert sFold (-4)]) ∧
    (unmatchedAssert sFold (-4)).grammarScopeName = sFold.grammar.scopeName ∧
    (unmatchedAssert sFold (-4)).unmatchedEndTag = sFold.grammar.scopeForId (-4) ∧
    (unmatchedAssert sFold (-4)).filePath = sFold.buffer.path ∧
    (unmatchedAssert sFold (-4)).fileContents = sFold.buffer.getText :=
  c2_amended sFold [-5] [-3] (-4) [] (by decide) (by decide) (by decide)

/-- Counterexample for C2 as stated: after the unmatched close `-2` empties
the stack, the claim says no later tag is applied and the empty partial
stack is returned; the code keeps folding, so the later open tag `-3` is
pushed and the returned stack is `[-3]`, not `[]`. -/
theorem c2_counterexample :
    (scopesFromTags sFold [] [-2, -3]).1 = [-3] ∧
    ¬ (scopesFromTags sFold [] [-2, -3]).1 = [] := by
  constructor <;> decide

/-! C6 — placeholder synthesis in `tokenizedLineForRow`. -/

/-- The spec's wording for C6, as a predicate: any line returned by
`tokenizedLineForRow` has a tag stream that is exactly one positive-length
span equal to the line's length, bracketed by the root scope's open and
close tags. -/
def specPlaceholderPositiveSpan (s : TBState) (row : Int) : Prop :=
  ∀ line, (tokenizedLineForRow s row).1 = some line →
    ∃ n : Int, 0 < n ∧
      line.tags = [s.grammar.startIdForScope s.grammar.scopeName, n,
        s.grammar.endIdForScope s.grammar.scopeName]

/-- C6 (amended): for an in-range row with an empty cache slot,
`tokenizedLineForRow` synthesizes, stores and returns the placeholder line:
one span equal to the line's length (possibly zero, for an empty line)
bracketed by the root scope's open and close tags, with no open scopes; a
populated slot is returned unchanged and the state is untouched. -/
theorem c6_amended (s : TBState) (row : Int) (h0 : 0 ≤ row)
    (h1 : row ≤ s.buffer.getLastRow)
    (hlen : s.tokenizedLines.length = s.buffer.lines.length) :
    (cacheAt s row = none →
      (tokenizedLineForRow s row).1 = some (placeholderLine s row) ∧
      cacheAt (tokenizedLineForRow s row).2 row = some (placeholderLine s row) ∧
      (placeholderLine s row).tags =
        [s.grammar.startIdForScope s.grammar.scopeName,
          ((s.buffer.lineForRow row).length : Int),
          s.grammar.endIdForScope s.grammar.scopeName] ∧
      (placeholderLine s row).openScopes = [] ∧
      (placeholderLine s row).ruleStack = none) ∧
    (∀ tl, cacheAt s row = some tl →
      (tokenizedLineForRow s row).1 = some tl ∧
      (tokenizedLineForRow s row).2 = s) := by
  have hrange : 0 ≤ row ∧ row ≤ s.buffer.getLastRow := ⟨h0, h1⟩
  constructor
  · intro hnone
    have h1' : (tokenizedLineForRow s row).1 = some (placeholderLine s row) := by
      unfold tokenizedLineForRow
      rw [if_pos hrange, hnone]
    have h2' : (tokenizedLineForRow s row).2 =
        setCacheAt s row (placeholderLine s row) := by
      unfold tokenizedLineForRow
      rw [if_pos hrange, hnone]
    refine ⟨h1', ?_, rfl, rfl, rfl⟩
    rw [h2']
    unfold setCacheAt cacheAt
    rw [if_pos h0, if_pos h0]
    simp only [List.getD_eq_getElem?_getD]
    rw [List.getElem?_set_self]
    · rfl
    · have hcount : row < (s.buffer.lines.length : Int) := by
        have := h1
        unfold TextBuffer.getLastRow at this
        omega
      omega
  · intro tl htl
    unfold tokenizedLineForRow
    rw [if_pos hrange, htl]
    exact ⟨rfl, rfl⟩

/-- A concrete state with an empty single line and an empty cache slot. -/
def sEmptyLine : TBState := mkState [""] [] 20

/-- Counterexample for C6 as stated: on an empty line the synthesized span
is `0`, which is not positive. -/
theorem c6_counterexample : ¬ specPlaceholderPositiveSpan sEmptyLine 0 := by
  intro h
  have hline : (tokenizedLineForRow sEmptyLine 0).1 =
      some (placeholderLine sEmptyLine 0) := by decide
  obtain ⟨n, hn, ht⟩ := h _ hline
  have htags : (placeholderLine sEmptyLine 0).tags = [-1, 0, -2] := by decide
  rw [htags] at ht
  have hstart : sEmptyLine.grammar.startIdForScope sEmptyLine.grammar.scopeName = -1 := by
    decide
  have hend : sEmptyLine.grammar.endIdForScope sEmptyLine.grammar.scopeName = -2 := by
    decide
  rw [hstart, hend] at ht
  have : n = 0 := by
    have := List.cons.inj ht
    have := List.cons.inj this.2
    omega
  omega

/-- A concrete two-line state whose row 1 slot is empty. -/
def sPlaceholder : TBState := mkState ["ab", "cde"] [] 20

/-- Witness for C6 (amended) at row 1 of a concrete state. -/
theorem c6_witness :
    (cacheAt sPlaceholder 1 = none →
      (tokenizedLineForRow sPlaceholder 1).1 = some (placeholderLine sPlaceholder 1) ∧
      cacheAt (tokenizedLineForRow sPlaceholder 1).2 1 =
        some (placeholderLine sPlaceholder 1) ∧
      (placeholderLine sPlaceholder 1).tags =
        [sPlaceholder.grammar.startIdForScope sPlaceholder.grammar.scopeName,
          ((sPlaceholder.buffer.lineForRow 1).length : Int),
          sPlaceholder.grammar.endIdForScope sPlaceholder.grammar.scopeName] ∧
      (placeholderLine sPlaceholder 1).openScopes = [] ∧
      (placeholderLine sPlaceholder 1).ruleStack = none) ∧
    (∀ tl, cacheAt sPlaceholder 1 = some tl →
      (tokenizedLineForRow sPlaceholder 1).1 = some tl ∧
      (tokenizedLineForRow sPlaceholder 1).2 = sPlaceholder) :=
  c6_amended sPlaceholder 1 (by decide) (by decide) (by decide)

/-! C3 — out-of-range query behaviour. -/

/-- C3 (amended): for a row outside `[0, lastRow]`, `tokenizedLineForRow`
returns nothing (and leaves the state untouched) and `isFoldableCodeAtRow`
returns false, without throwing; but `tokenForPosition`,
`tokenStartPositionForPosition` and `bufferRangeForScopeAtPosition` do not
guard the missing line and throw a `TypeError`. -/
theorem c3_amended (s : TBState) (row col : Int) (selector : String)
    (h : row < 0 ∨ s.buffer.getLastRow < row) :
    (tokenizedLineForRow s row).1 = none ∧
    (tokenizedLineForRow s row).2 = s ∧
    (tokenForPosition s ⟨row, col⟩).1 = Except.error JsError.typeError ∧
    (tokenStartPositionForPosition s ⟨row, col⟩).1 =
      Except.error JsError.typeError ∧
    (bufferRangeForScopeAtPosition s selector ⟨row, col⟩).1 =
      Except.error JsError.typeError ∧
    isFoldableCodeAtRow s row = false := by
  have hcond : ¬ (0 ≤ row ∧ row ≤ s.buffer.getLastRow) := by
    rcases h with h | h <;> omega
  have hline : tokenizedLineForRow s row = (none, s) := by
    unfold tokenizedLineForRow
    rw [if_neg hcond]
  refine ⟨by rw [hline], by rw [hline], ?_, ?_, ?_, ?_⟩
  · unfold tokenForPosition
    rw [hline]
  · unfold tokenStartPositionForPosition
    rw [hline]
  · unfold bufferRangeForScopeAtPosition
    rw [hline]
  · unfold isFoldableCodeAtRow
    rw [if_neg hcond]

/-- A concrete three-line state for the C3 theorems. -/
def sQuery : TBState := mkState ["abc", "de", "f"] [] 20

/-- Witness for C3 (amended) at the out-of-range row 5. -/
theorem c3_witness :
    (tokenizedLineForRow sQuery 5).1 = none ∧
    (tokenizedLineForRow sQuery 5).2 = sQuery ∧
    (tokenForPosition sQuery ⟨5, 0⟩).1 = Except.error JsError.typeError ∧
    (tokenStartPositionForPosition sQuery ⟨5, 0⟩).1 =
      Except.error JsError.typeError ∧
    (bufferRangeForScopeAtPosition sQuery ".source" ⟨5, 0⟩).1 =
      Except.error JsError.typeError ∧
    isFoldableCodeAtRow sQuery 5 = false :=
  c3_amended sQuery 5 0 ".source" (by right; decide)

/-- Counterexample for C3 as stated: the claim says out-of-range queries
never throw, but `tokenForPosition` at row 5 of a three-line buffer calls a
method on the `undefined` result of `tokenizedLineForRow` — a thrown
`TypeError`, modelled as `Except.error`. -/
theorem c3_counterexample :
    (tokenForPosition sQuery ⟨5, 0⟩).1 = Except.error JsError.typeError := by
  have hline : tokenizedLineForRow sQuery 5 = (none, sQuery) := by
    unfold tokenizedLineForRow
    rw [if_neg (by decide)]
  unfold tokenForPosition
  rw [hline]

/-! C8 — large-file mode and the null grammar. -/

/-- C8: in large-file mode or under the null grammar, `retokenizeLines`
marks tokenization complete immediately — the flag is set, `invalidRows` is
left empty and no background invalidation is issued — and any
`bufferDidChange` in such a mode keeps an empty `invalidRows` empty. -/
theorem c8_degenerate_modes (s t : TBState) (e : ChangeEvent)
    (hs : s.largeFileMode = true ∨ s.grammar.name = "Null Grammar")
    (halive : s.alive = true)
    (ht : t.largeFileMode = true ∨ t.grammar.name = "Null Grammar")
    (hti : t.invalidRows = []) :
    (retokenizeLines s).fullyTokenized = true ∧
    (retokenizeLines s).invalidRows = [] ∧
    (retokenizeLines s).invalidateCalls = s.invalidateCalls ∧
    (bufferDidChange t e).invalidRows = [] := by
  refine ⟨?_, ?_, ?_, ?_⟩ <;>
    [skip; skip; skip;
     · unfold bufferDidChange
       rw [if_pos (by simpa [bdcRebase, updateInvalidRows] using ht)]
       simp [bdcRebase, updateInvalidRows, hti]] <;>
  · unfold retokenizeLines
    rw [if_neg (by simp [halive]), if_pos (by simpa using hs)]
    rfl

/-- The null grammar: a degenerate grammar named "Null Grammar". -/
def nullGrammar : Grammar :=
  { name := "Null Grammar"
    scopeName := "text.plain.null-grammar"
    tokenizeLine := fun _ _ _ => ([1], 0)
    startIdForScope := fun _ => -1
    endIdForScope := fun _ => -2
    scopeForId := fun _ => none }

/-- A concrete null-grammar state. -/
def sNull : TBState := { mkState ["x", "y"] [] 20 with grammar := nullGrammar }

/-- A concrete single-row change event. -/
def eSmall : ChangeEvent :=
  { oldRange := { start := { row := 0, column := 0 }, end_ := { row := 0, column := 1 } }
    newRange := { start := { row := 0, column := 0 }, end_ := { row := 0, column := 2 } } }

/-- Witness for C8 on a concrete null-grammar state. -/
theorem c8_witness :
    (retokenizeLines sNull).fullyTokenized = true ∧
    (retokenizeLines sNull).invalidRows = [] ∧
    (retokenizeLines sNull).invalidateCalls = sNull.invalidateCalls ∧
    (bufferDidChange sNull eSmall).invalidRows = [] :=
  c8_degenerate_modes sNull sNull eSmall (Or.inr rfl) rfl (Or.inr rfl) rfl

/-! C10 — `scopesFromTags` does not mutate its `startingScopes` argument. -/

theorem storeGet_storeSet_ne (st : ScopeStore) (h h2 : Nat) (v : List Int)
    (hne : h ≠ h2) : storeGet (storeSet st h v) h2 = storeGet st h2 := by
  unfold storeGet storeSet
  simp [List.getD_eq_getElem?_getD, List.getElem?_set_ne hne]

theorem storeGet_storeSet_self (st : ScopeStore) (h : Nat) (v : List Int)
    (hlt : h < st.length) : storeGet (storeSet st h v) h = v := by
  unfold storeGet storeSet
  simp [List.getD_eq_getElem?_getD, List.getElem?_set_self hlt]

theorem scopesFromTagsStGo_frame (tags : List Int) : ∀ (st : ScopeStore)
    (h h2 : Nat), h2 ≠ h →
    storeGet (scopesFromTagsStGo st h tags) h2 = storeGet st h2 := by
  induction tags with
  | nil => intro st h h2 _; rfl
  | cons tag rest ih =>
    intro st h h2 hne
    show storeGet (if tag < 0 then _ else _) h2 = _
    split_ifs with h1 h2neg
    · rw [ih _ _ _ hne, storeGet_storeSet_ne _ _ _ _ (Ne.symm hne)]
    · show storeGet (scopesFromTagsStGo
        (storeSet st h (popUntilMatch (storeGet st h) (tag + 1)).1) h rest) h2 = _
      rw [ih _ _ _ hne, storeGet_storeSet_ne _ _ _ _ (Ne.symm hne)]
    · exact ih st h h2 hne

theorem scopesFromTagsStGo_correct (tags : List Int) : ∀ (st : ScopeStore)
    (h : Nat) (s : TBState) (recs : List AssertRecord), h < st.length →
    storeGet (scopesFromTagsStGo st h tags) h =
      (scopesFromTagsGo s (storeGet st h) tags recs).1 := by
  induction tags with
  | nil => intro st h s recs _; rfl
  | cons tag rest ih =>
    intro st h s recs hlt
    show storeGet (if tag < 0 then _ else _) h =
      ((if tag < 0 then _ else _ : List Int × List AssertRecord)).1
    split_ifs with h1 h2neg
    · rw [ih _ _ s recs (by simpa [storeSet] using hlt),
        storeGet_storeSet_self _ _ _ hlt]
    · show storeGet (scopesFromTagsStGo
        (storeSet st h (popUntilMatch (storeGet st h) (tag + 1)).1) h rest) h =
        (scopesFromTagsGo s (popUntilMatch (storeGet st h) (tag + 1)).1 rest
          (if (popUntilMatch (storeGet st h) (tag + 1)).2 then
            recs ++ [unmatchedAssert s tag] else recs)).1
      rw [ih _ _ s _ (by simpa [storeSet] using hlt),
        storeGet_storeSet_self _ _ _ hlt]
    · exact ih st h s recs hlt

/-- C10: `scopesFromTags` operates on a fresh copy of its `startingScopes`
argument (`startingScopes.slice()`): over an explicit array store, the
caller's array is unchanged by the call, the returned array is a different
array, and its contents are the pure fold of the tags over the starting
scopes. -/
theorem c10_no_mutation (s : TBState) (st : ScopeStore) (h : Nat)
    (tags : List Int) (hh : h < st.length) :
    storeGet (scopesFromTagsSt st h tags).1 h = storeGet st h ∧
    ¬ (scopesFromTagsSt st h tags).2 = h ∧
    storeGet (scopesFromTagsSt st h tags).1 (scopesFromTagsSt st h tags).2 =
      (scopesFromTags s (storeGet st h) tags).1 := by
  have hfresh : h ≠ st.length := by omega
  refine ⟨?_, by show ¬ st.length = h; omega, ?_⟩
  · show storeGet
      (scopesFromTagsStGo (st ++ [storeGet st h]) st.length tags) h = storeGet st h
    rw [scopesFromTagsStGo_frame tags _ _ _ hfresh]
    unfold storeGet
    simp [List.getD_eq_getElem?_getD, List.getElem?_append, hh]
  · show storeGet
      (scopesFromTagsStGo (st ++ [storeGet st h]) st.length tags) st.length =
      (scopesFromTagsGo s (storeGet st h) tags []).1
    rw [scopesFromTagsStGo_correct tags _ _ s [] (by simp)]
    have : storeGet (st ++ [storeGet st h]) st.length = storeGet st h := by
      unfold storeGet
      simp [List.getD_eq_getElem?_getD, List.getElem?_concat_length]
    rw [this]

/-- Witness for C10 on a concrete store: the starting array `[-1, -3]` is
unchanged by a fold that pushes and pops. -/
theorem c10_witness :
    storeGet (scopesFromTagsSt [[-1, -3]] 0 [-4, 1, -5, -2]).1 0 =
      storeGet [[-1, -3]] 0 ∧
    ¬ (scopesFromTagsSt [[-1, -3]] 0 [-4, 1, -5, -2]).2 = 0 ∧
    storeGet (scopesFromTagsSt [[-1, -3]] 0 [-4, 1, -5, -2]).1
        (scopesFromTagsSt [[-1, -3]] 0 [-4, 1, -5, -2]).2 =
      (scopesFromTags sFold (storeGet [[-1, -3]] 0) [-4, 1, -5, -2]).1 :=
  c10_no_mutation sFold [[-1, -3]] 0 [-4, 1, -5, -2] (by decide)

/-! C7 — spill propagation in `bufferDidChange`. -/

theorem invalidateRow_calls (s : TBState) (row : Int) :
    (invalidateRow s row).invalidateCalls = s.invalidateCalls ++ [row] := rfl

theorem stackForRow_invalidateRow (s : TBState) (row r : Int) :
    stackForRow (invalidateRow s row) r = stackForRow s r := rfl

theorem bdcBuild_calls (s : TBState) (e : ChangeEvent) :
    (bdcBuild s e).2.invalidateCalls = s.invalidateCalls ++
      (if e.oldRange.end_.row + (e.newRange.end_.row - e.oldRange.end_.row) ≥
          e.oldRange.start.row + (s.chunkSize : Int) then
        [e.oldRange.start.row + (s.chunkSize : Int)] else []) := by
  have hsplit : (bdcBuild s e).2 =
      (if e.oldRange.end_.row + (e.newRange.end_.row - e.oldRange.end_.row) ≥
          e.oldRange.start.row + (s.chunkSize : Int) then
        tokenizeInBackground (invalidateRow (bdcRebase s e)
          (e.oldRange.start.row + (s.chunkSize : Int)))
      else bdcRebase s e) := rfl
  rw [hsplit]
  split_ifs with hb
  · rfl
  · simp [bdcRebase, updateInvalidRows]

/-- C7: outside large-file and null-grammar mode, `bufferDidChange`
invalidates row `end + delta + 1` if and only if the new rule stack at row
`end + delta` (read from the rebuilt cache) is non-null and differs from
the rule stack captured at row `end` before the splice. The invalidations
issued by the call are observed in the instrumentation suffix. -/
theorem c7_spill_iff (s : TBState) (e : ChangeEvent)
    (hlf : s.largeFileMode = false) (hg : ¬ s.grammar.name = "Null Grammar") :
    ((e.oldRange.end_.row + (e.newRange.end_.row - e.oldRange.end_.row) + 1) ∈
        (bufferDidChange s e).invalidateCalls.drop s.invalidateCalls.length ↔
      ((stackForRow (bufferDidChange s e)
          (e.oldRange.end_.row + (e.newRange.end_.row - e.oldRange.end_.row))).isSome ∧
        ¬ stackForRow (bufferDidChange s e)
            (e.oldRange.end_.row + (e.newRange.end_.row - e.oldRange.end_.row)) =
          stackForRow s e.oldRange.end_.row)) := by
  have hmode : ¬ ((bdcRebase s e).largeFileMode = true ∨
      (bdcRebase s e).grammar.name = "Null Grammar") := by
    simp [bdcRebase, updateInvalidRows, hlf, hg]
  have hbdc : bufferDidChange s e =
      (if (stackForRow (bdcSpliced s e)
            (e.oldRange.end_.row + (e.newRange.end_.row - e.oldRange.end_.row))).isSome ∧
          ¬ stackForRow (bdcSpliced s e)
              (e.oldRange.end_.row + (e.newRange.end_.row - e.oldRange.end_.row)) =
            stackForRow s e.oldRange.end_.row then
        invalidateRow (bdcSpliced s e)
          (e.oldRange.end_.row + (e.newRange.end_.row - e.oldRange.end_.row) + 1)
      else bdcSpliced s e) := by
    unfold bufferDidChange
    rw [if_neg hmode]
    rfl
  have hscalls : (bdcSpliced s e).invalidateCalls =
      s.invalidateCalls ++
        (if e.oldRange.end_.row + (e.newRange.end_.row - e.oldRange.end_.row) ≥
            e.oldRange.start.row + (s.chunkSize : Int) then
          [e.oldRange.start.row + (s.chunkSize : Int)] else []) :=
    bdcBuild_calls s e
  rw [hbdc]
  by_cases hsp : (stackForRow (bdcSpliced s e)
      (e.oldRange.end_.row + (e.newRange.end_.row - e.oldRange.end_.row))).isSome = true ∧
      ¬ stackForRow (bdcSpliced s e)
          (e.oldRange.end_.row + (e.newRange.end_.row - e.oldRange.end_.row)) =
        stackForRow s e.oldRange.end_.row
  · rw [if_pos hsp]
    constructor
    · intro _
      exact hsp
    · intro _
      rw [invalidateRow_calls, hscalls, List.append_assoc, List.drop_left]
      simp
  · rw [if_neg hsp]
    constructor
    · intro hmem
      exfalso
      rw [hscalls, List.drop_left] at hmem
      revert hmem
      split_ifs with hb
      · intro hmem
        rw [List.mem_singleton] at hmem
        omega
      · intro hmem
        simp at hmem
    · intro hR
      exact absurd hR hsp

/-- A concrete state and edit for the C7 witness. -/
def sSpill : TBState := mkState ["aa", "bb", "cc"] [] 3

/-- A concrete single-row replacement event for the C7 witness. -/
def eSpill : ChangeEvent :=
  { oldRange := { start := { row := 0, column := 0 }, end_ := { row := 0, column := 2 } }
    newRange := { start := { row := 0, column := 0 }, end_ := { row := 0, column := 1 } } }

/-- Witness for C7 on a concrete state and edit. -/
theorem c7_witness :
    ((eSpill.oldRange.end_.row +
          (eSpill.newRange.end_.row - eSpill.oldRange.end_.row) + 1) ∈
        (bufferDidChange sSpill eSpill).invalidateCalls.drop
          sSpill.invalidateCalls.length ↔
      ((stackForRow (bufferDidChange sSpill eSpill)
          (eSpill.oldRange.end_.row +
            (eSpill.newRange.end_.row - eSpill.oldRange.end_.row))).isSome ∧
        ¬ stackForRow (bufferDidChange sSpill eSpill)
            (eSpill.oldRange.end_.row +
              (eSpill.newRange.end_.row - eSpill.oldRange.end_.row)) =
          stackForRow sSpill eSpill.oldRange.end_.row)) :=
  c7_spill_iff sSpill eSpill rfl (by decide)

/-! C1/C5 machinery: frame facts, the termination measure, and loop
invariants of the background scheduler. -/

/-- The fields of the state that the background loop never changes. -/
def SameConfig (a b : TBState) : Prop :=
  a.buffer = b.buffer ∧ a.grammar = b.grammar ∧ a.chunkSize = b.chunkSize ∧
  a.fullyTokenized = b.fullyTokenized ∧ a.alive = b.alive ∧
  a.largeFileMode = b.largeFileMode ∧ a.tabLength = b.tabLength

theorem sameConfig_refl (a : TBState) : SameConfig a a :=
  ⟨rfl, rfl, rfl, rfl, rfl, rfl, rfl⟩

theorem sameConfig_trans {a b c : TBState} (h1 : SameConfig a b)
    (h2 : SameConfig b c) : SameConfig a c := by
  obtain ⟨x1, x2, x3, x4, x5, x6, x7⟩ := h1
  obtain ⟨y1, y2, y3, y4, y5, y6, y7⟩ := h2
  exact ⟨x1.trans y1, x2.trans y2, x3.trans y3, x4.trans y4, x5.trans y5,
    x6.trans y6, x7.trans y7⟩

theorem sameConfig_lastRow {a b : TBState} (h : SameConfig a b) :
    lastRow a = lastRow b := by
  unfold lastRow
  rw [h.1]

theorem setCacheAt_config (s : TBState) (row : Int) (line : TokenizedLine) :
    SameConfig (setCacheAt s row line) s ∧
    (setCacheAt s row line).invalidRows = s.invalidRows := by
  unfold setCacheAt
  split_ifs <;> exact ⟨⟨rfl, rfl, rfl, rfl, rfl, rfl, rfl⟩, rfl⟩

theorem validateRow_config (s : TBState) (row : Int) :
    SameConfig (validateRow s row) s ∧
    (validateRow s row).invalidRows = validateRowsFrom s.invalidRows row :=
  ⟨⟨rfl, rfl, rfl, rfl, rfl, rfl, rfl⟩, rfl⟩

theorem invalidateRow_config (s : TBState) (row : Int) :
    SameConfig (invalidateRow s row) s ∧
    (invalidateRow s row).invalidRows = sortRows (s.invalidRows ++ [row]) :=
  ⟨⟨rfl, rfl, rfl, rfl, rfl, rfl, rfl⟩, rfl⟩

theorem markTokenizationComplete_rows (s : TBState) :
    (markTokenizationComplete s).invalidRows = s.invalidRows ∧
    (markTokenizationComplete s).buffer = s.buffer ∧
    (markTokenizationComplete s).chunkSize = s.chunkSize ∧
    (markTokenizationComplete s).fullyTokenized = true :=
  ⟨rfl, rfl, rfl, rfl⟩

/-- Frame and counting facts of the inner region loop: only the cache
changes; the region never stops before `row`; remaining plus builds equals
the incoming `rowsRemaining`; and at least one row is built when any
budget was available. -/
theorem tokenizeRegion_spec (rr : Nat) : ∀ (s : TBState) (row : Int),
    SameConfig (tokenizeRegion s row rr).state s ∧
    (tokenizeRegion s row rr).state.invalidRows = s.invalidRows ∧
    row ≤ (tokenizeRegion s row rr).endRow ∧
    (tokenizeRegion s row rr).remaining + (tokenizeRegion s row rr).builds = rr ∧
    (rr ≠ 0 → 1 ≤ (tokenizeRegion s row rr).builds) := by
  induction rr with
  | zero =>
    intro s row
    exact ⟨sameConfig_refl s, rfl, le_refl _, rfl, fun h => absurd rfl h⟩
  | succ n ih =>
    intro s row
    show SameConfig (tokenizeRegion s row (n + 1)).state s ∧ _
    simp only [tokenizeRegion]
    obtain ⟨hc, hrows⟩ := setCacheAt_config s row
      (buildTokenizedLineForRow s row (stackForRow s (row - 1)) (openScopesForRow s row))
    split_ifs with h1 h2
    · exact ⟨hc, hrows, le_refl _, by simp only []; omega, fun _ => le_refl _⟩
    · exact ⟨hc, hrows, le_refl _, by simp only [], fun _ => le_refl _⟩
    · obtain ⟨ic, irows, iend, icount, _⟩ := ih _ (row + 1)
      refine ⟨sameConfig_trans ic hc, irows.trans hrows,
        ?_, ?_, fun _ => ?_⟩ <;> simp only [] <;> omega

/-- The cost of one invalid row in the termination measure: rows at or
below `lastRow` cost more the lower they are; rows beyond `lastRow` cost
one (they are discarded without building). -/
def rowCost (L r : Int) : Nat := (L + 2 - min r (L + 1)).toNat

/-- The termination measure of the background scheduler for a given
`lastRow`. -/
def measureW (L : Int) (rows : List Int) : Nat :=
  (rows.map (rowCost L)).sum

theorem rowCost_pos (L r : Int) : 1 ≤ rowCost L r := by
  unfold rowCost
  rw [min_def]
  split_ifs <;> omega

theorem rowCost_succ_lt (L a e : Int) (ha : a ≤ L) (hae : a ≤ e) :
    rowCost L (e + 1) < rowCost L a := by
  unfold rowCost
  rw [min_def, min_def]
  split_ifs <;> omega

theorem measureW_nil (L : Int) : measureW L [] = 0 := rfl

theorem measureW_cons (L r : Int) (rows : List Int) :
    measureW L (r :: rows) = rowCost L r + measureW L rows := by
  simp [measureW]

theorem measureW_append (L : Int) (a b : List Int) :
    measureW L (a ++ b) = measureW L a + measureW L b := by
  simp [measureW]

theorem measureW_perm (L : Int) {a b : List Int} (h : a.Perm b) :
    measureW L a = measureW L b :=
  (h.map (rowCost L)).sum_eq

theorem measureW_sortRows (L : Int) (rows : List Int) :
    measureW L (sortRows rows) = measureW L rows :=
  measureW_perm L (List.perm_insertionSort _ rows)

theorem measureW_eq_zero (L : Int) (rows : List Int)
    (h : measureW L rows = 0) : rows = [] := by
  cases rows with
  | nil => rfl
  | cons r rest =>
    rw [measureW_cons] at h
    have := rowCost_pos L r
    omega

theorem validateRowsFrom_suffix (rows : List Int) (row : Int) :
    validateRowsFrom rows row <:+ rows := by
  induction rows with
  | nil => exact List.suffix_refl _
  | cons r rest ih =>
    show (if r ≤ row then validateRowsFrom rest row else r :: rest) <:+ _
    split_ifs
    · exact ih.trans (List.suffix_cons r rest)
    · exact List.suffix_refl _

theorem measureW_validateRowsFrom (L : Int) (rows : List Int) (row : Int) :
    measureW L (validateRowsFrom rows row) ≤ measureW L rows := by
  induction rows with
  | nil => exact le_refl _
  | cons r rest ih =>
    show measureW L (if r ≤ row then validateRowsFrom rest row else r :: rest) ≤ _
    rw [measureW_cons]
    split_ifs
    · omega
    · rw [measureW_cons]

theorem sorted_validateRowsFrom (rows : List Int) (row : Int)
    (h : List.Sorted (· ≤ ·) rows) :
    List.Sorted (· ≤ ·) (validateRowsFrom rows row) :=
  List.Pairwise.sublist (validateRowsFrom_suffix rows row).sublist h

theorem sorted_sortRows (rows : List Int) :
    List.Sorted (· ≤ ·) (sortRows rows) :=
  List.sorted_insertionSort (· ≤ ·) rows

/-- Frame, counting and measure facts of one processed region of the outer
loop. -/
theorem chunkProcessRegion_spec (s1 : TBState) (startRow : Int) (rr : Nat) :
    SameConfig (chunkProcessRegion s1 startRow rr).1 s1 ∧
    ((chunkProcessRegion s1 startRow rr).2.2 +
      (chunkProcessRegion s1 startRow rr).2.1 = rr) ∧
    (rr ≠ 0 → 1 ≤ (chunkProcessRegion s1 startRow rr).2.2) ∧
    (startRow ≤ lastRow s1 →
      measureW (lastRow s1) (chunkProcessRegion s1 startRow rr).1.invalidRows <
        measureW (lastRow s1) s1.invalidRows + rowCost (lastRow s1) startRow) ∧
    (List.Sorted (· ≤ ·) s1.invalidRows →
      List.Sorted (· ≤ ·) (chunkProcessRegion s1 startRow rr).1.invalidRows) := by
  obtain ⟨rc, rrows, rend, rcount, _⟩ := tokenizeRegion_spec rr s1 startRow
  set r := tokenizeRegion s1 startRow rr with hr
  have hs2rows : (validateRow r.state r.endRow).invalidRows =
      validateRowsFrom s1.invalidRows r.endRow := by
    rw [(validateRow_config r.state r.endRow).2, rrows]
  have hs2c : SameConfig (validateRow r.state r.endRow) s1 :=
    sameConfig_trans (validateRow_config r.state r.endRow).1 rc
  by_cases hf : r.filledRegion
  · refine ⟨?_, ?_, ?_, ?_, ?_⟩
    · show SameConfig { (if r.filledRegion then _ else _ : TBState) with
        events := _ } s1
      rw [if_pos hf]
      exact sameConfig_trans ⟨rfl, rfl, rfl, rfl, rfl, rfl, rfl⟩ hs2c
    · show r.builds + r.remaining = rr
      omega
    · intro h0
      show 1 ≤ r.builds
      exact (tokenizeRegion_spec rr s1 startRow).2.2.2.2 h0
    · intro hrow
      show measureW _ ({ (if r.filledRegion then _ else _ : TBState) with
        events := _ }).invalidRows < _
      rw [if_pos hf]
      show measureW _ (validateRow r.state r.endRow).invalidRows < _
      rw [hs2rows]
      have h1 := measureW_validateRowsFrom (lastRow s1) s1.invalidRows r.endRow
      have h2 := rowCost_pos (lastRow s1) startRow
      omega
    · intro hsorted
      show List.Sorted _ ({ (if r.filledRegion then _ else _ : TBState) with
        events := _ }).invalidRows
      rw [if_pos hf]
      show List.Sorted _ (validateRow r.state r.endRow).invalidRows
      rw [hs2rows]
      exact sorted_validateRowsFrom _ _ hsorted
  · have hs3rows : (invalidateRow (validateRow r.state r.endRow)
        (r.endRow + 1)).invalidRows =
        sortRows (validateRowsFrom s1.invalidRows r.endRow ++ [r.endRow + 1]) := by
      rw [(invalidateRow_config _ _).2, hs2rows]
    refine ⟨?_, ?_, ?_, ?_, ?_⟩
    · show SameConfig { (if r.filledRegion then _ else _ : TBState) with
        events := _ } s1
      rw [if_neg hf]
      exact sameConfig_trans ⟨rfl, rfl, rfl, rfl, rfl, rfl, rfl⟩
        (sameConfig_trans
          (invalidateRow_config (validateRow r.state r.endRow) (r.endRow + 1)).1
          hs2c)
    · show r.builds + r.remaining = rr
      omega
    · intro h0
      show 1 ≤ r.builds
      exact (tokenizeRegion_spec rr s1 startRow).2.2.2.2 h0
    · intro hrow
      show measureW _ ({ (if r.filledRegion then _ else _ : TBState) with
        events := _ }).invalidRows < _
      rw [if_neg hf]
      show measureW _ (invalidateRow (validateRow r.state r.endRow)
        (r.endRow + 1)).invalidRows < _
      rw [hs3rows, measureW_sortRows, measureW_append, measureW_cons,
        measureW_nil]
      have h1 := measureW_validateRowsFrom (lastRow s1) s1.invalidRows r.endRow
      have h2 := rowCost_succ_lt (lastRow s1) startRow r.endRow hrow rend
      omega
    · intro _
      show List.Sorted _ ({ (if r.filledRegion then _ else _ : TBState) with
        events := _ }).invalidRows
      rw [if_neg hf]
      show List.Sorted _ (invalidateRow (validateRow r.state r.endRow)
        (r.endRow + 1)).invalidRows
      rw [(invalidateRow_config _ _).2]
      exact sorted_sortRows _

theorem tokenizeChunkGo_nil (fuel : Nat) (s : TBState) (b rr : Nat)
    (h : s.invalidRows = []) : tokenizeChunkGo s b fuel rr = (s, rr, b) := by
  cases fuel with
  | zero => rfl
  | succ f =>
    simp only [tokenizeChunkGo]
    rw [h]

theorem tokenizeChunkGo_rr_zero (f : Nat) (s : TBState) (b : Nat)
    (startRow : Int) (rest : List Int)
    (hrows : s.invalidRows = startRow :: rest) :
    tokenizeChunkGo s b (f + 1) 0 = (s, 0, b) := by
  simp only [tokenizeChunkGo]
  rw [hrows]
  simp

theorem tokenizeChunkGo_discard (f : Nat) (s : TBState) (b rr : Nat)
    (startRow : Int) (rest : List Int)
    (hrows : s.invalidRows = startRow :: rest) (hrr : ¬ rr = 0)
    (hgt : startRow > lastRow { s with invalidRows := rest }) :
    tokenizeChunkGo s b (f + 1) rr =
      tokenizeChunkGo { s with invalidRows := rest } b f rr := by
  simp only [tokenizeChunkGo]
  rw [hrows]
  simp only []
  rw [if_neg hrr, if_pos hgt]

theorem tokenizeChunkGo_process (f : Nat) (s : TBState) (b rr : Nat)
    (startRow : Int) (rest : List Int)
    (hrows : s.invalidRows = startRow :: rest) (hrr : ¬ rr = 0)
    (hle : ¬ startRow > lastRow { s with invalidRows := rest }) :
    tokenizeChunkGo s b (f + 1) rr =
      tokenizeChunkGo
        (chunkProcessRegion { s with invalidRows := rest } startRow rr).1
        (b + (chunkProcessRegion { s with invalidRows := rest } startRow rr).2.2)
        f
        (chunkProcessRegion { s with invalidRows := rest } startRow rr).2.1 := by
  simp only [tokenizeChunkGo]
  rw [hrows]
  simp only []
  rw [if_neg hrr, if_neg hle]

/-- The outer loop preserves the configuration fields, never increases the
termination measure, only increases the build counter, and builds at most
`rowsRemaining` rows. -/
theorem tokenizeChunkGo_spec (fuel : Nat) : ∀ (s : TBState) (b rr : Nat),
    SameConfig (tokenizeChunkGo s b fuel rr).1 s ∧
    measureW (lastRow s) (tokenizeChunkGo s b fuel rr).1.invalidRows ≤
      measureW (lastRow s) s.invalidRows ∧
    b ≤ (tokenizeChunkGo s b fuel rr).2.2 ∧
    (tokenizeChunkGo s b fuel rr).2.2 + (tokenizeChunkGo s b fuel rr).2.1 ≤
      b + rr := by
  induction fuel with
  | zero =>
    intro s b rr
    exact ⟨sameConfig_refl s, le_refl _, le_refl _, le_refl _⟩
  | succ f ih =>
    intro s b rr
    cases hrows : s.invalidRows with
    | nil =>
      rw [tokenizeChunkGo_nil (f + 1) s b rr hrows]
      refine ⟨sameConfig_refl s, ?_, le_refl _, le_refl _⟩
      show measureW (lastRow s) s.invalidRows ≤ measureW (lastRow s) []
      rw [hrows]
    | cons startRow rest =>
      by_cases hrr : rr = 0
      · subst hrr
        rw [tokenizeChunkGo_rr_zero f s b startRow rest hrows]
        refine ⟨sameConfig_refl s, ?_, le_refl _, le_refl _⟩
        show measureW (lastRow s) s.invalidRows ≤
          measureW (lastRow s) (startRow :: rest)
        rw [hrows]
      · have hmcons : measureW (lastRow s) (startRow :: rest) =
            rowCost (lastRow s) startRow + measureW (lastRow s) rest :=
          measureW_cons _ _ _
        by_cases hgt : startRow > lastRow { s with invalidRows := rest }
        · rw [tokenizeChunkGo_discard f s b rr startRow rest hrows hrr hgt]
          obtain ⟨ic, im, ib, ict⟩ := ih { s with invalidRows := rest } b rr
          refine ⟨sameConfig_trans ic ⟨rfl, rfl, rfl, rfl, rfl, rfl, rfl⟩,
            ?_, ib, ict⟩
          have hlr : lastRow ({ s with invalidRows := rest } : TBState) =
              lastRow s := rfl
          rw [hlr] at im
          have hrest : measureW (lastRow s)
              ({ s with invalidRows := rest } : TBState).invalidRows =
              measureW (lastRow s) rest := rfl
          rw [hrest] at im
          omega
        · rw [tokenizeChunkGo_process f s b rr startRow rest hrows hrr hgt]
          obtain ⟨pc, pcount, ppos, pmeas, psort⟩ :=
            chunkProcessRegion_spec { s with invalidRows := rest } startRow rr
          obtain ⟨ic, im, ib, ict⟩ :=
            ih (chunkProcessRegion { s with invalidRows := rest } startRow rr).1
              (b + (chunkProcessRegion { s with invalidRows := rest }
                startRow rr).2.2)
              (chunkProcessRegion { s with invalidRows := rest } startRow rr).2.1
          have hc1 : SameConfig ({ s with invalidRows := rest } : TBState) s :=
            ⟨rfl, rfl, rfl, rfl, rfl, rfl, rfl⟩
          have hlr : lastRow (chunkProcessRegion
              { s with invalidRows := rest } startRow rr).1 = lastRow s := by
            rw [sameConfig_lastRow pc]
            rfl
          refine ⟨sameConfig_trans ic (sameConfig_trans pc hc1), ?_, ?_, ?_⟩
          · rw [hlr] at im
            have hmea := pmeas (not_lt.mp hgt)
            have hlr2 : lastRow ({ s with invalidRows := rest } : TBState) =
                lastRow s := rfl
            rw [hlr2] at hmea
            have hrest : measureW (lastRow s)
                ({ s with invalidRows := rest } : TBState).invalidRows =
                measureW (lastRow s) rest := rfl
            rw [hrest] at hmea
            omega
          · omega
          · omega

/-- The outer loop preserves sortedness of the invalid rows. -/
theorem tokenizeChunkGo_sorted (fuel : Nat) : ∀ (s : TBState) (b rr : Nat),
    List.Sorted (· ≤ ·) s.invalidRows →
    List.Sorted (· ≤ ·) (tokenizeChunkGo s b fuel rr).1.invalidRows := by
  induction fuel with
  | zero => intro s b rr h; exact h
  | succ f ih =>
    intro s b rr h
    cases hrows : s.invalidRows with
    | nil =>
      rw [tokenizeChunkGo_nil (f + 1) s b rr hrows]
      exact h
    | cons a rest =>
      have hrest : List.Sorted (· ≤ ·) rest := by
        rw [hrows] at h
        exact (List.sorted_cons.mp h).2
      by_cases hrr : rr = 0
      · subst hrr
        rw [tokenizeChunkGo_rr_zero f s b a rest hrows]
        exact h
      · by_cases hgt : a > lastRow { s with invalidRows := rest }
        · rw [tokenizeChunkGo_discard f s b rr a rest hrows hrr hgt]
          exact ih { s with invalidRows := rest } b rr hrest
        · rw [tokenizeChunkGo_process f s b rr a rest hrows hrr hgt]
          exact ih _ _ _
            ((chunkProcessRegion_spec { s with invalidRows := rest } a rr).2.2.2.2
              hrest)

/-- With fuel left and budget left, a non-empty invalid-row set strictly
shrinks the measure in one pass of the outer loop. -/
theorem tokenizeChunkGo_measure_lt (f : Nat) (s : TBState) (b rr : Nat)
    (hne : ¬ s.invalidRows = []) (hrr : ¬ rr = 0) :
    measureW (lastRow s) (tokenizeChunkGo s b (f + 1) rr).1.invalidRows <
      measureW (lastRow s) s.invalidRows := by
  cases hrows : s.invalidRows with
  | nil => exact absurd hrows hne
  | cons a rest =>
    by_cases hgt : a > lastRow { s with invalidRows := rest }
    · rw [tokenizeChunkGo_discard f s b rr a rest hrows hrr hgt]
      have im := (tokenizeChunkGo_spec f { s with invalidRows := rest } b rr).2.1
      have im2 : measureW (lastRow s)
          (tokenizeChunkGo { s with invalidRows := rest } b f rr).1.invalidRows ≤
          measureW (lastRow s) rest := im
      have h1 := rowCost_pos (lastRow s) a
      rw [measureW_cons]
      omega
    · rw [tokenizeChunkGo_process f s b rr a rest hrows hrr hgt]
      have pc := (chunkProcessRegion_spec { s with invalidRows := rest } a rr).1
      have hlr : lastRow (chunkProcessRegion
          { s with invalidRows := rest } a rr).1 = lastRow s := by
        rw [sameConfig_lastRow pc]
        rfl
      have im := (tokenizeChunkGo_spec f
        (chunkProcessRegion { s with invalidRows := rest } a rr).1
        (b + (chunkProcessRegion { s with invalidRows := rest } a rr).2.2)
        (chunkProcessRegion { s with invalidRows := rest } a rr).2.1).2.1
      rw [hlr] at im
      have hmea := (chunkProcessRegion_spec
        { s with invalidRows := rest } a rr).2.2.2.1 (not_lt.mp hgt)
      have hmea2 : measureW (lastRow s) (chunkProcessRegion
          { s with invalidRows := rest } a rr).1.invalidRows <
          measureW (lastRow s) rest + rowCost (lastRow s) a := hmea
      rw [measureW_cons]
      omega

/-- With enough fuel, the loop builds at least one row whenever an
in-range invalid row is present and budget is available. -/
theorem tokenizeChunkGo_builds_pos (fuel : Nat) : ∀ (s : TBState)
    (b rr : Nat) (r0 : Int), r0 ∈ s.invalidRows → r0 ≤ lastRow s →
    ¬ rr = 0 → s.invalidRows.length ≤ fuel →
    b + 1 ≤ (tokenizeChunkGo s b fuel rr).2.2 := by
  induction fuel with
  | zero =>
    intro s b rr r0 hmem hle hrr hlen
    have hnil : s.invalidRows = [] :=
      List.eq_nil_of_length_eq_zero (by omega)
    rw [hnil] at hmem
    exact absurd hmem (List.not_mem_nil r0)
  | succ f ih =>
    intro s b rr r0 hmem hle hrr hlen
    cases hrows : s.invalidRows with
    | nil =>
      rw [hrows] at hmem
      exact absurd hmem (List.not_mem_nil r0)
    | cons a rest =>
      by_cases hgt : a > lastRow { s with invalidRows := rest }
      · rw [tokenizeChunkGo_discard f s b rr a rest hrows hrr hgt]
        have hlr : lastRow ({ s with invalidRows := rest } : TBState) =
            lastRow s := rfl
        have hne : ¬ r0 = a := by omega
        have hmem2 : r0 ∈ rest := by
          rw [hrows] at hmem
          rcases List.mem_cons.mp hmem with h | h
          · exact absurd h hne
          · exact h
        have hlen2 : rest.length ≤ f := by
          rw [hrows] at hlen
          simpa using hlen
        exact ih { s with invalidRows := rest } b rr r0 hmem2 hle hrr hlen2
      · rw [tokenizeChunkGo_process f s b rr a rest hrows hrr hgt]
        have hpos := (chunkProcessRegion_spec
          { s with invalidRows := rest } a rr).2.2.1 hrr
        have hmono := (tokenizeChunkGo_spec f
          (chunkProcessRegion { s with invalidRows := rest } a rr).1
          (b + (chunkProcessRegion { s with invalidRows := rest } a rr).2.2)
          (chunkProcessRegion { s with invalidRows := rest } a rr).2.1).2.2.1
        omega

/-- `tokenizeNextChunk` preserves the buffer and the chunk size; its
resulting invalid rows and build count come from the loop. -/
theorem tokenizeNextChunk_core (s : TBState) :
    (tokenizeNextChunk s).1.buffer = s.buffer ∧
    (tokenizeNextChunk s).1.chunkSize = s.chunkSize ∧
    (tokenizeNextChunk s).1.invalidRows =
      (tokenizeChunkGo s 0 (s.chunkSize + s.invalidRows.length)
        s.chunkSize).1.invalidRows ∧
    (tokenizeNextChunk s).2 =
      (tokenizeChunkGo s 0 (s.chunkSize + s.invalidRows.length)
        s.chunkSize).2.2 := by
  have hc := (tokenizeChunkGo_spec (s.chunkSize + s.invalidRows.length)
    s 0 s.chunkSize).1
  unfold tokenizeNextChunk
  split_ifs with h
  · exact ⟨hc.1, hc.2.2.1, rfl, rfl⟩
  · exact ⟨hc.1, hc.2.2.1, rfl, rfl⟩

theorem tokenizeNextChunk_of_nil (s : TBState) (h : s.invalidRows = []) :
    tokenizeNextChunk s = (markTokenizationComplete s, 0) := by
  unfold tokenizeNextChunk
  rw [tokenizeChunkGo_nil _ _ _ _ h]
  simp [h]

theorem tokenizeNextChunk_measure_lt (s : TBState)
    (hne : ¬ s.invalidRows = []) (hchunk : ¬ s.chunkSize = 0) :
    measureW (lastRow s) (tokenizeNextChunk s).1.invalidRows <
      measureW (lastRow s) s.invalidRows := by
  obtain ⟨f, hf⟩ : ∃ f, s.chunkSize + s.invalidRows.length = f + 1 :=
    ⟨s.chunkSize + s.invalidRows.length - 1, by omega⟩
  have hlt := tokenizeChunkGo_measure_lt f s 0 s.chunkSize hne hchunk
  rw [(tokenizeNextChunk_core s).2.2.1, hf]
  exact hlt

theorem iterateChunks_one_of_nil (s : TBState) (h : s.invalidRows = []) :
    (iterateChunks 1 s).invalidRows = [] ∧
    (iterateChunks 1 s).fullyTokenized = true := by
  have h1 := tokenizeNextChunk_of_nil s h
  constructor
  · show (tokenizeNextChunk s).1.invalidRows = []
    rw [h1]
    exact h
  · show (tokenizeNextChunk s).1.fullyTokenized = true
    rw [h1]
    rfl

/-- Strong induction on the measure: some finite number of invocations of
`tokenizeNextChunk` empties the invalid rows and marks completion. -/
theorem iterateChunks_complete : ∀ (k : Nat) (s : TBState),
    measureW (lastRow s) s.invalidRows ≤ k → ¬ s.chunkSize = 0 →
    ∃ n, (iterateChunks n s).invalidRows = [] ∧
      (iterateChunks n s).fullyTokenized = true := by
  intro k
  induction k with
  | zero =>
    intro s hm _
    exact ⟨1, iterateChunks_one_of_nil s
      (measureW_eq_zero _ _ (Nat.le_zero.mp hm))⟩
  | succ k ih =>
    intro s hm hc
    by_cases hne : s.invalidRows = []
    · exact ⟨1, iterateChunks_one_of_nil s hne⟩
    · have hlt := tokenizeNextChunk_measure_lt s hne hc
      have hbuf : lastRow (tokenizeNextChunk s).1 = lastRow s := by
        unfold lastRow
        rw [(tokenizeNextChunk_core s).1]
      have hm2 : measureW (lastRow (tokenizeNextChunk s).1)
          (tokenizeNextChunk s).1.invalidRows ≤ k := by
        rw [hbuf]
        omega
      obtain ⟨n, hn1, hn2⟩ := ih (tokenizeNextChunk s).1 hm2
        (by rw [(tokenizeNextChunk_core s).2.1]; exact hc)
      exact ⟨n + 1, hn1, hn2⟩

/-- C1 (amended): starting from any finite buffer, any chunk size of at
least one row and any invalid rows (at non-negative row numbers, modelling
JS array indices), a finite number of `tokenizeNextChunk` invocations
empties `invalidRows` and sets `fullyTokenized`; each invocation builds at
most `chunkSize` rows; and an invocation builds at least one row whenever
an invalid row within `[0, lastRow]` exists — an invocation whose invalid
rows all lie beyond `lastRow` discards them without building anything (the
grammar is modelled as a total function, per the claim's assumption that
`tokenizeLine` terminates on every line). -/
theorem c1_amended (s : TBState) (hchunk : 1 ≤ s.chunkSize)
    (_hrows : ∀ r ∈ s.invalidRows, 0 ≤ r) :
    (∃ n, (iterateChunks n s).invalidRows = [] ∧
      (iterateChunks n s).fullyTokenized = true) ∧
    (tokenizeNextChunk s).2 ≤ s.chunkSize ∧
    ((∃ r ∈ s.invalidRows, r ≤ lastRow s) → 1 ≤ (tokenizeNextChunk s).2) := by
  refine ⟨?_, ?_, ?_⟩
  · exact iterateChunks_complete (measureW (lastRow s) s.invalidRows) s
      (le_refl _) (by omega)
  · have hb := (tokenizeChunkGo_spec (s.chunkSize + s.invalidRows.length)
      s 0 s.chunkSize).2.2.2
    rw [(tokenizeNextChunk_core s).2.2.2]
    omega
  · rintro ⟨r0, hmem, hle⟩
    have hp := tokenizeChunkGo_builds_pos
      (s.chunkSize + s.invalidRows.length) s 0 s.chunkSize r0 hmem hle
      (by omega) (by omega)
    rw [(tokenizeNextChunk_core s).2.2.2]
    omega

/-- A concrete two-line state with one invalid row for the C1 witness. -/
def sChunk : TBState := mkState ["a", "b"] [0] 2

/-- Witness for C1 (amended) on a concrete state. -/
theorem c1_witness :
    (∃ n, (iterateChunks n sChunk).invalidRows = [] ∧
      (iterateChunks n sChunk).fullyTokenized = true) ∧
    (tokenizeNextChunk sChunk).2 ≤ sChunk.chunkSize ∧
    ((∃ r ∈ sChunk.invalidRows, r ≤ lastRow sChunk) →
      1 ≤ (tokenizeNextChunk sChunk).2) :=
  c1_amended sChunk (by decide) (by decide)

/-- A one-line state whose only invalid row lies beyond `lastRow`. -/
def sDiscard : TBState := mkState ["a"] [1] 2

/-- Counterexample for C1 as stated: the claim says every invocation
tokenizes at least one invalid row when any exists; on a one-line buffer
whose only invalid row is `1 > lastRow = 0`, the invocation discards the
row and builds nothing. -/
theorem c1_counterexample :
    ¬ sDiscard.invalidRows = [] ∧ (tokenizeNextChunk sDiscard).2 = 0 := by
  constructor
  · decide
  · rfl

/-! C5 — shape of `invalidRows` under the engine operations. -/

theorem tokenizeNextChunk_sorted (s : TBState)
    (h : List.Sorted (· ≤ ·) s.invalidRows) :
    List.Sorted (· ≤ ·) (tokenizeNextChunk s).1.invalidRows := by
  rw [(tokenizeNextChunk_core s).2.2.1]
  exact tokenizeChunkGo_sorted _ s 0 s.chunkSize h

theorem rebaseRow_monotone (start end_ delta : Int)
    (hv : start ≤ end_ + delta + 1) (a b : Int) (hab : a ≤ b) :
    rebaseRow start end_ delta a ≤ rebaseRow start end_ delta b := by
  unfold rebaseRow
  split_ifs <;> omega

theorem updateInvalidRows_sorted (s : TBState) (start end_ delta : Int)
    (hv : start ≤ end_ + delta + 1)
    (h : List.Sorted (· ≤ ·) s.invalidRows) :
    List.Sorted (· ≤ ·) (updateInvalidRows s start end_ delta).invalidRows :=
  List.Pairwise.map _
    (fun a b hab => rebaseRow_monotone start end_ delta hv a b hab) h

/-- The operations of the claim, as a small command language over the
engine state. -/
inductive EngineOp where
  | invalidate (row : Int)
  | validate (row : Int)
  | update (start end_ delta : Int)
  | chunk
deriving DecidableEq, Repr

def applyEngineOp (s : TBState) : EngineOp → TBState
  | .invalidate row => invalidateRow s row
  | .validate row => validateRow s row
  | .update start end_ delta => updateInvalidRows s start end_ delta
  | .chunk => (tokenizeNextChunk s).1

/-- A rebase operation is valid when its parameters come from an actual
edit: `start = newRange.start.row ≤ newRange.end.row + 1 = end + delta + 1`. -/
def ValidEngineOp : EngineOp → Prop
  | .update start end_ delta => start ≤ end_ + delta + 1
  | _ => True

instance : DecidablePred ValidEngineOp := by
  intro op
  cases op with
  | invalidate row => exact .isTrue trivial
  | validate row => exact .isTrue trivial
  | update start end_ delta =>
    exact inferInstanceAs (Decidable (start ≤ end_ + delta + 1))
  | chunk => exact .isTrue trivial

/-- C5 (amended): after every sequence of `invalidateRow`, `validateRow`,
`updateInvalidRows` (with parameters arising from a valid edit) and
`tokenizeNextChunk` operations starting from a sorted state, `invalidRows`
is sorted in non-decreasing order. The claim's further conjuncts fail on
the code: duplicates can occur (`invalidateRow` pushes unconditionally) and
rows can reach `lineCount` (the chunk-exhaustion invalidation targets
`endRow + 1`). -/
theorem c5_amended (ops : List EngineOp) (s : TBState)
    (hs : List.Sorted (· ≤ ·) s.invalidRows)
    (hops : ∀ op ∈ ops, ValidEngineOp op) :
    List.Sorted (· ≤ ·) (ops.foldl applyEngineOp s).invalidRows := by
  induction ops generalizing s with
  | nil => exact hs
  | cons op rest ih =>
    rw [List.foldl_cons]
    refine ih (applyEngineOp s op) ?_
      (fun o ho => hops o (List.mem_cons_of_mem _ ho))
    have hop := hops op (List.mem_cons_self op rest)
    cases op with
    | invalidate row => exact sorted_sortRows _
    | validate row => exact sorted_validateRowsFrom _ _ hs
    | update start end_ delta => exact updateInvalidRows_sorted s _ _ _ hop hs
    | chunk => exact tokenizeNextChunk_sorted s hs

/-- A concrete operation sequence for the C5 witness. -/
def opsC5 : List EngineOp :=
  [EngineOp.invalidate 5, EngineOp.update 0 2 1, EngineOp.chunk,
   EngineOp.validate 3]

/-- Witness for C5 (amended) on a concrete state and operation sequence. -/
theorem c5_witness :
    List.Sorted (· ≤ ·) (opsC5.foldl applyEngineOp sChunk).invalidRows :=
  c5_amended opsC5 sChunk (by decide) (by decide)

/-- Counterexample for C5 as stated: on a two-line buffer with `chunkSize =
2`, one chunk invocation leaves `invalidRows = [2]`, and `2` is not less
than `lineCount = 2`; and two `invalidateRow 2` calls leave the duplicate
`[0, 2, 2]`. -/
theorem c5_counterexample :
    (∃ r ∈ (tokenizeNextChunk sChunk).1.invalidRows,
      getLineCount (tokenizeNextChunk sChunk).1 ≤ r) ∧
    (invalidateRow (invalidateRow sChunk 2) 2).invalidRows = [0, 2, 2] := by
  constructor
  · decide
  · decide
